import Mathlib

/-!
# Verification of the geo-data registry access layer

A shallow embedding of the core of the `geo-data` repository
(`packages/cli/src/utils/registry.ts`, `schemas.ts`, `helpers.ts`, and the
code generator), together with proofs about the fetch/validate/cache/fallback
pipeline and the language/coordinate projection.

Conventions of the embedding:
* JavaScript objects parsed from JSON are modelled by the inductive `Json`;
  JS numbers are modelled as `Rat` (no arithmetic is performed on them,
  only copying and comparison with zero for truthiness).
* `Record<string, string>` name maps are association lists (`RMap`) in
  object-key insertion order.
* The zod schemas of `schemas.ts` become the `parse*` functions; `safeParse`
  success corresponds to `some`, failure to `none`.
* The asynchronous functions of `registry.ts` are state-passing functions
  over an explicit cache (list of key/payload/mtime entries) and an
  environment carrying the clock and the single network outcome of the call.
-/

namespace GeoData

/-! ## Name maps (`Record<string, string>` in insertion order) -/

/-- A JS object of string values, in key insertion order. -/
abbrev RMap := List (String × String)

/-- JS property read `m[k]` (objects have no duplicate keys; first match). -/
def rget (m : RMap) (k : String) : Option String :=
  (m.find? (fun p => p.1 = k)).map (·.2)

/-- JS property write `m[k] = v`: update in place if the key exists,
otherwise append (JS objects keep insertion order). -/
def rset (m : RMap) (k : String) (v : String) : RMap :=
  match m with
  | [] => [(k, v)]
  | (k', v') :: rest => if k' = k then (k, v) :: rest else (k', v') :: rset rest k v

/-- JS truthiness of an optional string property: `undefined` and `""` are
falsy, every other string is truthy. -/
def truthyS : Option String → Bool
  | none => false
  | some s => s ≠ ""

/-! ## The data model (`schemas.ts`) -/

/-- A city: `CitySchema` — `name` record plus independently optional
`latitude`/`longitude`. -/
structure City where
  name : RMap
  latitude : Option Rat
  longitude : Option Rat
deriving DecidableEq, Repr

/-- A region: `RegionSchema`. -/
structure Region where
  code : String
  name : RMap
  cities : List City
deriving DecidableEq, Repr

/-- A country dataset: `CountryDataSchema`. -/
structure CountryData where
  code : String
  iso3 : Option String
  name : RMap
  phone : String
  currency : String
  timezone : String
  flag : String
  regions : List Region
deriving DecidableEq, Repr

/-- One entry of the registry index (`RegistryIndexSchema.countries` value). -/
structure IndexEntry where
  nameEn : String
  nameAr : Option String
  flag : String
  languages : List String
deriving DecidableEq, Repr

/-- The registry index: `RegistryIndexSchema`. -/
structure RegistryIndex where
  version : String
  countries : List (String × IndexEntry)
deriving DecidableEq, Repr

/-- The user configuration `GeoDataConfig` (`config.ts`). -/
structure GeoDataConfig where
  schemaUrl : Option String
  outputDir : String
  languages : List String
  includeCoordinates : Bool
  typescript : Bool
deriving DecidableEq, Repr

/-! ## DataFilter: `filterCountryData` (`registry.ts`) -/

/-- The `for (const lang of config.languages)` loop inside `filterName`:
copy each requested language whose value is truthy into the accumulator. -/
def filterLoop (langs : List String) (name acc : RMap) : RMap :=
  match langs with
  | [] => acc
  | l :: ls =>
    match rget name l with
    | some v => if v ≠ "" then filterLoop ls name (rset acc l v) else filterLoop ls name acc
    | none => filterLoop ls name acc

/-- `filterName` from `filterCountryData`: keep requested languages, then
re-add English (`if (!filtered.en && name.en) filtered.en = name.en`). -/
def filterName (cfg : GeoDataConfig) (name : RMap) : RMap :=
  let filtered := filterLoop cfg.languages name []
  match rget name "en" with
  | some v =>
    if ¬ truthyS (rget filtered "en") ∧ v ≠ "" then rset filtered "en" v else filtered
  | none => filtered

/-- The per-city body of `filterCountryData`: a fresh city with the filtered
name; coordinates are copied only when `includeCoordinates` is set and both
`latitude !== undefined` and `longitude !== undefined`. -/
def filterCity (cfg : GeoDataConfig) (city : City) : City :=
  let name' := filterName cfg city.name
  if cfg.includeCoordinates && city.latitude.isSome && city.longitude.isSome then
    { name := name', latitude := city.latitude, longitude := city.longitude }
  else
    { name := name', latitude := none, longitude := none }

/-- The per-region body of `filterCountryData`: `{ ...region, name:
filterName(region.name), cities: region.cities.map(...) }`. -/
def filterRegion (cfg : GeoDataConfig) (region : Region) : Region :=
  { region with
    name := filterName cfg region.name
    cities := region.cities.map (filterCity cfg) }

/-- `filterCountryData(data, config)`: project a validated dataset onto the
configured languages and coordinate preference. -/
def filterCountryData (data : CountryData) (config : GeoDataConfig) : CountryData :=
  { data with
    name := filterName config data.name
    regions := data.regions.map (filterRegion config) }

/-! ## JSON payloads and zod validation -/

/-- An untyped JSON payload as fetched from the network or the cache. -/
inductive Json where
  | null
  | bool (b : Bool)
  | num (q : Rat)
  | str (s : String)
  | arr (elems : List Json)
  | obj (fields : List (String × Json))

/-- JS truthiness of a JSON value (`if (cached)` / `if (stale)`). -/
def Json.truthy : Json → Bool
  | .null => false
  | .bool b => b
  | .num q => q ≠ 0
  | .str s => s ≠ ""
  | .arr _ => true
  | .obj _ => true

/-- Property lookup on a JSON object's field list. -/
def jsonLookup (fields : List (String × Json)) (k : String) : Option Json :=
  (fields.find? (fun p => p.1 = k)).map (·.2)

/-- `z.string()`. -/
def parseStr : Json → Option String
  | .str s => some s
  | _ => none

/-- `z.number()`. -/
def parseNumJ : Json → Option Rat
  | .num q => some q
  | _ => none

/-- `z.record(z.string(), z.string())`: an object all of whose values are
strings, kept in key order. -/
def parseRecordString : Json → Option RMap
  | .obj fields => fields.mapM (fun p => (parseStr p.2).map (fun s => (p.1, s)))
  | _ => none

/-- A `.optional()` field: absent is fine, present must parse. -/
def parseOptField {α} (fields : List (String × Json)) (k : String)
    (p : Json → Option α) : Option (Option α) :=
  match jsonLookup fields k with
  | none => some none
  | some v => (p v).map some

/-- `CitySchema.safeParse`. -/
def parseCity : Json → Option City
  | .obj fields => do
    let nameJ ← jsonLookup fields "name"
    let name ← parseRecordString nameJ
    let lat ← parseOptField fields "latitude" parseNumJ
    let lon ← parseOptField fields "longitude" parseNumJ
    pure { name := name, latitude := lat, longitude := lon }
  | _ => none

/-- `RegionSchema.safeParse`. -/
def parseRegion : Json → Option Region
  | .obj fields => do
    let codeJ ← jsonLookup fields "code"
    let code ← parseStr codeJ
    let nameJ ← jsonLookup fields "name"
    let name ← parseRecordString nameJ
    let citiesJ ← jsonLookup fields "cities"
    match citiesJ with
    | .arr elems => do
      let cities ← elems.mapM parseCity
      pure { code := code, name := name, cities := cities }
    | _ => none
  | _ => none

/-- `CountryDataSchema.safeParse`. -/
def parseCountryData : Json → Option CountryData
  | .obj fields => do
    let code ← jsonLookup fields "code" >>= parseStr
    let iso3 ← parseOptField fields "iso3" parseStr
    let name ← jsonLookup fields "name" >>= parseRecordString
    let phone ← jsonLookup fields "phone" >>= parseStr
    let currency ← jsonLookup fields "currency" >>= parseStr
    let timezone ← jsonLookup fields "timezone" >>= parseStr
    let flag ← jsonLookup fields "flag" >>= parseStr
    let regionsJ ← jsonLookup fields "regions"
    match regionsJ with
    | .arr elems => do
      let regions ← elems.mapM parseRegion
      pure { code := code, iso3 := iso3, name := name, phone := phone,
             currency := currency, timezone := timezone, flag := flag,
             regions := regions }
    | _ => none
  | _ => none

/-- The nested `z.object({ en: z.string(), ar: z.string().optional() })` plus
`flag` and `languages` of one index entry. -/
def parseIndexEntry : Json → Option IndexEntry
  | .obj fields => do
    let nameJ ← jsonLookup fields "name"
    match nameJ with
    | .obj nameFields => do
      let en ← jsonLookup nameFields "en" >>= parseStr
      let ar ← parseOptField nameFields "ar" parseStr
      let flag ← jsonLookup fields "flag" >>= parseStr
      let langsJ ← jsonLookup fields "languages"
      match langsJ with
      | .arr elems => do
        let langs ← elems.mapM parseStr
        pure { nameEn := en, nameAr := ar, flag := flag, languages := langs }
      | _ => none
    | _ => none
  | _ => none

/-- `RegistryIndexSchema.safeParse`. -/
def parseRegistryIndex : Json → Option RegistryIndex
  | .obj fields => do
    let version ← jsonLookup fields "version" >>= parseStr
    let countriesJ ← jsonLookup fields "countries"
    match countriesJ with
    | .obj cfields => do
      let countries ← cfields.mapM (fun p => (parseIndexEntry p.2).map (fun e => (p.1, e)))
      pure { version := version, countries := countries }
    | _ => none
  | _ => none

/-! ## Serialization of validated data back to JSON (`writeJson(result.data)`) -/

/-- Serialize a name map. -/
def encodeRMap (m : RMap) : Json :=
  .obj (m.map (fun p => (p.1, .str p.2)))

/-- Helper for an optional field of a serialized object. -/
def optField {α} (k : String) (o : Option α) (enc : α → Json) : List (String × Json) :=
  match o with
  | none => []
  | some a => [(k, enc a)]

/-- Serialize a city (zod output key order: `name`, `latitude`, `longitude`). -/
def encodeCity (c : City) : Json :=
  .obj (("name", encodeRMap c.name) ::
    (optField "latitude" c.latitude .num ++ optField "longitude" c.longitude .num))

/-- Serialize a region. -/
def encodeRegion (r : Region) : Json :=
  .obj [("code", .str r.code), ("name", encodeRMap r.name),
        ("cities", .arr (r.cities.map encodeCity))]

/-- Serialize a full country dataset. -/
def encodeCountryData (d : CountryData) : Json :=
  .obj (("code", .str d.code) :: (optField "iso3" d.iso3 .str ++
    [("name", encodeRMap d.name), ("phone", .str d.phone),
     ("currency", .str d.currency), ("timezone", .str d.timezone),
     ("flag", .str d.flag), ("regions", .arr (d.regions.map encodeRegion))]))

/-- Serialize one index entry. -/
def encodeIndexEntry (e : IndexEntry) : Json :=
  .obj [("name", .obj (("en", .str e.nameEn) :: optField "ar" e.nameAr .str)),
        ("flag", .str e.flag),
        ("languages", .arr (e.languages.map .str))]

/-- Serialize the registry index. -/
def encodeRegistryIndex (i : RegistryIndex) : Json :=
  .obj [("version", .str i.version),
        ("countries", .obj (i.countries.map (fun p => (p.1, encodeIndexEntry p.2))))]

/-! ## CacheStore (`~/.cache/geo-data/<key>.json`)

One entry per cache key: the persisted JSON payload together with the file's
`mtimeMs`. `writeCache` replaces the file wholesale. -/

/-- The cache directory: key, payload, last-modified timestamp (ms). -/
abbrev Cache := List (String × Json × Nat)

/-- Locate the cache file for a key. -/
def cacheFind (c : Cache) (key : String) : Option (Json × Nat) :=
  (c.find? (fun e => e.1 = key)).map (·.2)

/-- `writeCache(key, data)`: overwrite (or create) the entry; the file's
mtime becomes the current time. -/
def cacheWrite (c : Cache) (key : String) (data : Json) (now : Nat) : Cache :=
  match c with
  | [] => [(key, data, now)]
  | e :: rest => if e.1 = key then (key, data, now) :: rest else e :: cacheWrite rest key data now

/-- `readCache(cacheKey, maxAgeMs)`: the payload if the entry exists and
`Date.now() - stat.mtimeMs < maxAgeMs`, otherwise `null`. -/
def readCache (c : Cache) (now : Nat) (key : String) (maxAgeMs : Nat) : Option Json :=
  match cacheFind c key with
  | some (j, t) => if now - t < maxAgeMs then some j else none
  | none => none

/-- `readStaleCache(cacheKey)`: the payload regardless of age, if present. -/
def readStaleCache (c : Cache) (key : String) : Option Json :=
  (cacheFind c key).map (·.1)

/-! ## RegistryService (`fetchRegistry` / `fetchCountry`)

The `async` functions become state-passing functions over the cache. The
environment fixes what is outside the program: whether `REGISTRY_BASE` is
remote, the clock, and the outcome the single `fetchJson` call would have. -/

/-- The ambient world of one `fetchRegistry`/`fetchCountry` invocation. -/
structure FetchEnv where
  /-- `isRemoteRegistry(REGISTRY_BASE)`. -/
  remote : Bool
  /-- `Date.now()` in milliseconds. -/
  now : Nat
  /-- The outcome `fetchJson(url)` would produce: a payload, or a thrown
  network/timeout error. -/
  net : Except String Json

/-- The observable outcome of one invocation: the returned value (`Except`
for a thrown error, `none` for the `null` of a validation failure), the
cache directory afterwards, the warnings logged, and how many network
fetches were performed. -/
structure FetchOut (α : Type) where
  result : Except String (Option α)
  cache : Cache
  warnings : List String
  fetches : Nat

/-- Warning logged when falling back to the stale cache. -/
def netWarnMsg : String := "Network unavailable, using cached data"

/-- Warning logged when the registry index fails validation. -/
def registryInvalidMsg : String := "Registry index failed validation"

/-- Warning logged when a country dataset fails validation. -/
def countryInvalidMsg (code : String) : String :=
  "Country data for \"" ++ code ++ "\" failed validation"

/-- The tail of `fetchRegistry` from `RegistryIndexSchema.safeParse(data)`
on: warn and return `null` on validation failure, else cache (remote only)
and return the parsed index. `n` counts the network fetches performed. -/
def finishRegistry (env : FetchEnv) (c : Cache) (data : Json) (n : Nat) :
    FetchOut RegistryIndex :=
  match parseRegistryIndex data with
  | none => ⟨.ok none, c, [registryInvalidMsg], n⟩
  | some r =>
    if env.remote then
      ⟨.ok (some r), cacheWrite c "registry-index" (encodeRegistryIndex r) env.now, [], n⟩
    else ⟨.ok (some r), c, [], n⟩

/-- The network branch of `fetchRegistry`: `fetchJson`, and on a thrown
error the stale-cache fallback (`if (stale) { warn; data = stale } else
throw`). -/
def registryNet (env : FetchEnv) (c : Cache) : FetchOut RegistryIndex :=
  match env.net with
  | .ok j => finishRegistry env c j 1
  | .error e =>
    match readStaleCache c "registry-index" with
    | some stale =>
      if stale.truthy then
        let out := finishRegistry env c stale 1
        { out with warnings := netWarnMsg :: out.warnings }
      else ⟨.error e, c, [], 1⟩
    | none => ⟨.error e, c, [], 1⟩

/-- `fetchRegistry()`. In remote mode: fresh cache (1 hour window) if truthy,
else network with stale fallback; the payload is then validated and, on
success, written back to the cache. In local mode: read and validate only. -/
def fetchRegistry (env : FetchEnv) (c : Cache) : FetchOut RegistryIndex :=
  if env.remote then
    match readCache c env.now "registry-index" (60 * 60 * 1000) with
    | some cached => if cached.truthy then finishRegistry env c cached 0 else registryNet env c
    | none => registryNet env c
  else
    match env.net with
    | .ok j => finishRegistry env c j 0
    | .error e => ⟨.error e, c, [], 0⟩

/-- The tail of `fetchCountry` from `CountryDataSchema.safeParse(raw)` on:
warn and return `null` on validation failure, else cache the *full* parsed
dataset (remote only) and return it filtered by the caller's config. -/
def finishCountry (code : String) (config : GeoDataConfig) (env : FetchEnv)
    (c : Cache) (raw : Json) (n : Nat) : FetchOut CountryData :=
  match parseCountryData raw with
  | none => ⟨.ok none, c, [countryInvalidMsg code], n⟩
  | some d =>
    if env.remote then
      ⟨.ok (some (filterCountryData d config)),
       cacheWrite c ("country-" ++ code) (encodeCountryData d) env.now, [], n⟩
    else ⟨.ok (some (filterCountryData d config)), c, [], n⟩

/-- The network branch of `fetchCountry` with its stale-cache fallback. -/
def countryNet (code : String) (config : GeoDataConfig) (env : FetchEnv)
    (c : Cache) : FetchOut CountryData :=
  match env.net with
  | .ok j => finishCountry code config env c j 1
  | .error e =>
    match readStaleCache c ("country-" ++ code) with
    | some stale =>
      if stale.truthy then
        let out := finishCountry code config env c stale 1
        { out with warnings := netWarnMsg :: out.warnings }
      else ⟨.error e, c, [], 1⟩
    | none => ⟨.error e, c, [], 1⟩

/-- `fetchCountry(code, config)`. Same policy as `fetchRegistry` with key
`country-<code>` and a 24 hour window; on success the returned dataset is
passed through `filterCountryData`. -/
def fetchCountry (code : String) (config : GeoDataConfig) (env : FetchEnv)
    (c : Cache) : FetchOut CountryData :=
  if env.remote then
    match readCache c env.now ("country-" ++ code) (24 * 60 * 60 * 1000) with
    | some cached =>
      if cached.truthy then finishCountry code config env c cached 0
      else countryNet code config env c
    | none => countryNet code config env c
  else
    match env.net with
    | .ok j => finishCountry code config env c j 0
    | .error e => ⟨.error e, c, [], 0⟩

/-! ## helpers.ts and the code generator -/

/-- `suffix.isSuffixOf s` on the character lists: JS
`String.prototype.endsWith`. -/
def strEndsWith (s suffix : String) : Bool :=
  suffix.data.isSuffixOf s.data

/-- Replace the first occurrence of `pat` (non-empty) in a character list by
`rep` — the behaviour of JS `String.prototype.replace` with a string
pattern. -/
def replaceFirstAux (s pat rep : List Char) : List Char :=
  match s with
  | [] => []
  | c :: cs =>
    if pat.isPrefixOf (c :: cs) then rep ++ (c :: cs).drop pat.length
    else c :: replaceFirstAux cs pat rep

/-- JS `s.replace(pat, rep)` (first occurrence only). -/
def replaceFirst (s pat rep : String) : String :=
  ⟨replaceFirstAux s.data pat.data rep.data⟩

/-- `getInstalledCountries(outputDir)` (`helpers.ts`), as a function of the
directory listing: keep `*.json` files other than `index.json` and strip the
first `.json` from each name. Note: no sorting happens here. -/
def getInstalledCountries (files : List String) : List String :=
  (files.filter (fun f => strEndsWith f ".json" && f ≠ "index.json")).map
    (fun f => replaceFirst f ".json" "")

/-- Lexicographic comparison of character lists by code point, the order JS
`Array.prototype.sort()` uses on strings. -/
def charsLe : List Char → List Char → Bool
  | [], _ => true
  | _ :: _, [] => false
  | a :: as, b :: bs =>
    if a.toNat < b.toNat then true
    else if b.toNat < a.toNat then false
    else charsLe as bs

/-- String comparison by code points. -/
def strLe (a b : String) : Bool := charsLe a.data b.data

/-- Insert a string into a sorted list (ascending code-point order). -/
def insertStr (s : String) : List String → List String
  | [] => [s]
  | t :: ts => if strLe s t then s :: t :: ts else t :: insertStr s ts

/-- Insertion sort on strings, modelling JS `Array.prototype.sort()` on
the installed codes. -/
def sortStrings : List String → List String
  | [] => []
  | s :: ss => insertStr s (sortStrings ss)

/-- ASCII uppercasing of a country code, JS `String.prototype.toUpperCase`
on the codes in play. -/
def strToUpper (s : String) : String := ⟨s.data.map Char.toUpper⟩

/-- Modelled from the spec: `codegen.ts` (`generateIndex`) is not present in
the sources, only its tests and callers; per §4.6 the generator "lists the
dataset files currently materialized in `config.outputDir` (excluding the
index/summary file itself), sorts their codes for deterministic output" and
the emitted module's `getCountryCodes()` returns those codes, uppercased
(scenario: `["SA","US"]`). -/
def getCountryCodes (files : List String) : List String :=
  (sortStrings (getInstalledCountries files)).map strToUpper

/-! ## Lemmas about name maps and `filterName` -/

theorem rget_rset_self (m : RMap) (k : String) (v : String) :
    rget (rset m k v) k = some v := by
  induction m with
  | nil => simp [rset, rget, List.find?]
  | cons p rest ih =>
    by_cases h : p.1 = k
    · simp [rset, h, rget, List.find?]
    · simp only [rset]
      rw [if_neg h]
      simpa [rget, List.find?, h] using ih

theorem rget_rset_ne (m : RMap) (k k' v : String) (h : k' ≠ k) :
    rget (rset m k v) k' = rget m k' := by
  have hkk : (k = k') = False := eq_false (fun hh => h hh.symm)
  induction m with
  | nil => simp [rset, rget, List.find?, hkk]
  | cons p rest ih =>
    by_cases hp : p.1 = k
    · simp [rset, hp, rget, List.find?, hkk]
    · have hkk2 : (k' = k) = False := eq_false h
      by_cases hk' : p.1 = k'
      · simp [rset, hp, rget, List.find?, hk', hkk2]
      · simpa [rset, hp, rget, List.find?, hk', hkk2] using ih

theorem mem_rset (m : RMap) (k v : String) (p : String × String)
    (h : p ∈ rset m k v) : p ∈ m ∨ p = (k, v) := by
  induction m with
  | nil => simp [rset] at h; simp [h]
  | cons q rest ih =>
    by_cases hq : q.1 = k
    · simp only [rset, if_pos hq] at h
      rcases List.mem_cons.mp h with h | h
      · right; exact h
      · left; exact List.mem_cons_of_mem _ h
    · simp only [rset, if_neg hq] at h
      rcases List.mem_cons.mp h with h | h
      · left; exact h ▸ List.mem_cons_self _ _
      · rcases ih h with h | h
        · left; exact List.mem_cons_of_mem _ h
        · right; exact h

/-- Characterization of the language-copy loop: a key is bound iff it was
requested and truthy in the source (then to its source value), or was
already in the accumulator. -/
theorem rget_filterLoop (langs : List String) (name acc : RMap) (k : String) :
    rget (filterLoop langs name acc) k =
      if k ∈ langs ∧ truthyS (rget name k) then rget name k else rget acc k := by
  induction langs generalizing acc with
  | nil => simp [filterLoop]
  | cons l ls ih =>
    rcases hv : rget name l with _ | v
    · simp only [filterLoop, hv]
      rw [ih]
      by_cases hk : k = l
      · have ht : truthyS (rget name k) = false := by rw [hk, hv]; rfl
        simp [ht]
      · simp [List.mem_cons, hk]
    · by_cases hne : v = ""
      · simp only [filterLoop, hv]
        rw [if_neg (by simp [hne]), ih]
        by_cases hk : k = l
        · have ht : truthyS (rget name k) = false := by rw [hk, hv, hne]; rfl
          simp [ht]
        · simp [List.mem_cons, hk]
      · simp only [filterLoop, hv]
        rw [if_pos hne, ih]
        by_cases hk : k = l
        · subst hk
          have htv : truthyS (some v) = true := by simp [truthyS, hne]
          by_cases hmem : k ∈ ls
          · simp [hv, htv, hmem]
          · simp [hv, htv, hmem, rget_rset_self]
        · rw [rget_rset_ne _ _ _ _ hk]
          simp [List.mem_cons, hk]

/-- Every value stored by the copy loop is non-empty (only truthy values are
copied). -/
theorem filterLoop_values (langs : List String) (name acc : RMap)
    (hacc : ∀ p ∈ acc, p.2 ≠ "") :
    ∀ p ∈ filterLoop langs name acc, p.2 ≠ "" := by
  induction langs generalizing acc with
  | nil => simpa [filterLoop] using hacc
  | cons l ls ih =>
    rcases hv : rget name l with _ | v
    · simp only [filterLoop, hv]
      exact ih acc hacc
    · by_cases hne : v = ""
      · simp only [filterLoop, hv]
        rw [if_neg (by simp [hne])]
        exact ih acc hacc
      · simp only [filterLoop, hv]
        rw [if_pos hne]
        refine ih _ (fun p hp => ?_)
        rcases mem_rset acc l v p hp with h | h
        · exact hacc p h
        · rw [h]; exact hne

/-- Full characterization of `filterName`: a key is present iff it was
requested and truthy, or it is `en` and the source English name is truthy;
in either case it keeps its source value. -/
theorem rget_filterName (cfg : GeoDataConfig) (name : RMap) (k : String) :
    rget (filterName cfg name) k =
      if k ∈ cfg.languages ∧ truthyS (rget name k) then rget name k
      else if k = "en" ∧ truthyS (rget name "en") then rget name "en"
      else none := by
  have hloop := rget_filterLoop cfg.languages name [] k
  have hloopEn := rget_filterLoop cfg.languages name [] "en"
  rw [show rget ([] : RMap) k = none from rfl] at hloop
  rw [show rget ([] : RMap) "en" = none from rfl] at hloopEn
  rcases hv : rget name "en" with _ | v
  · have h1 : filterName cfg name = filterLoop cfg.languages name [] := by
      simp [filterName, hv]
    rw [h1, hloop]
    simp [truthyS]
  · by_cases hne : v = ""
    · subst hne
      have h1 : filterName cfg name = filterLoop cfg.languages name [] := by
        simp [filterName, hv]
      rw [h1, hloop]
      simp [truthyS]
    · rw [hv] at hloopEn
      have ht : truthyS (some v) = true := by simp [truthyS, hne]
      by_cases henloop : "en" ∈ cfg.languages ∧ truthyS (some v)
      · -- the loop already copied `en`, the fallback does not fire
        have htfl : truthyS (rget (filterLoop cfg.languages name []) "en") = true := by
          rw [hloopEn, if_pos henloop]; exact ht
        have h1 : filterName cfg name = filterLoop cfg.languages name [] := by
          simp [filterName, hv, htfl]
        rw [h1, hloop]
        by_cases hc : k ∈ cfg.languages ∧ truthyS (rget name k)
        · rw [if_pos hc, if_pos hc]
        · rw [if_neg hc, if_neg hc, if_neg]
          intro hc2
          refine hc ?_
          rw [hc2.1]
          exact ⟨henloop.1, by rw [hv]; exact henloop.2⟩
      · -- the fallback fires
        have hfl : truthyS (rget (filterLoop cfg.languages name []) "en") = false := by
          rw [hloopEn, if_neg henloop]; rfl
        have h1 : filterName cfg name = rset (filterLoop cfg.languages name []) "en" v := by
          simp [filterName, hv, hfl, hne]
        by_cases hk : k = "en"
        · subst hk
          have henloop' : ¬ ("en" ∈ cfg.languages ∧ truthyS (rget name "en")) := by
            rw [hv]; exact henloop
          rw [h1, rget_rset_self, if_neg henloop', if_pos ⟨rfl, ht⟩]
        · rw [h1, rget_rset_ne _ _ _ _ hk, hloop]
          simp [hk]

/-- The copy loop only observes truthiness and (when truthy) the value of
each requested language: two sources agreeing on that produce the same
output. -/
theorem filterLoop_congr : ∀ (langs : List String) (m₁ m₂ acc : RMap),
    (∀ l ∈ langs, rget m₁ l = rget m₂ l ∨
      (truthyS (rget m₁ l) = false ∧ truthyS (rget m₂ l) = false)) →
    filterLoop langs m₁ acc = filterLoop langs m₂ acc
  | [], _, _, _, _ => rfl
  | l :: ls, m₁, m₂, acc, h => by
    have hl := h l (List.mem_cons_self _ _)
    have hrest : ∀ l' ∈ ls, rget m₁ l' = rget m₂ l' ∨
        (truthyS (rget m₁ l') = false ∧ truthyS (rget m₂ l') = false) :=
      fun l' hl' => h l' (List.mem_cons_of_mem _ hl')
    rcases hl with heq | ⟨hf₁, hf₂⟩
    · rcases hv1 : rget m₁ l with _ | v
      · have hv2 : rget m₂ l = none := by rw [← heq, hv1]
        simp only [filterLoop, hv1, hv2]
        exact filterLoop_congr ls m₁ m₂ acc hrest
      · have hv2 : rget m₂ l = some v := by rw [← heq, hv1]
        simp only [filterLoop, hv1, hv2]
        by_cases hne : v = ""
        · rw [if_neg (by simp [hne]), if_neg (by simp [hne])]
          exact filterLoop_congr ls m₁ m₂ acc hrest
        · rw [if_pos hne, if_pos hne]
          exact filterLoop_congr ls m₁ m₂ _ hrest
    · have skip₁ : filterLoop (l :: ls) m₁ acc = filterLoop ls m₁ acc := by
        rcases hv1 : rget m₁ l with _ | v
        · simp only [filterLoop, hv1]
        · have hv : v = "" := by rw [hv1] at hf₁; simpa [truthyS] using hf₁
          simp only [filterLoop, hv1]
          rw [if_neg (by simp [hv])]
      have skip₂ : filterLoop (l :: ls) m₂ acc = filterLoop ls m₂ acc := by
        rcases hv2 : rget m₂ l with _ | v
        · simp only [filterLoop, hv2]
        · have hv : v = "" := by rw [hv2] at hf₂; simpa [truthyS] using hf₂
          simp only [filterLoop, hv2]
          rw [if_neg (by simp [hv])]
      rw [skip₁, skip₂]
      exact filterLoop_congr ls m₁ m₂ acc hrest

/-- `filterName` keeps the source English name whenever it is truthy,
whether or not `en` is among the requested languages. -/
theorem filterName_en (cfg : GeoDataConfig) (name : RMap)
    (h : truthyS (rget name "en") = true) :
    rget (filterName cfg name) "en" = rget name "en" := by
  rw [rget_filterName]
  by_cases hen : "en" ∈ cfg.languages ∧ truthyS (rget name "en")
  · rw [if_pos hen]
  · rw [if_neg hen, if_pos ⟨rfl, h⟩]

/-- `filterName` is idempotent. -/
theorem filterName_idem (cfg : GeoDataConfig) (name : RMap) :
    filterName cfg (filterName cfg name) = filterName cfg name := by
  have hcongr : filterLoop cfg.languages (filterName cfg name) [] =
      filterLoop cfg.languages name [] := by
    apply filterLoop_congr
    intro l hl
    rw [rget_filterName]
    by_cases htl : truthyS (rget name l) = true
    · left
      rw [if_pos ⟨hl, htl⟩]
    · have htl' : truthyS (rget name l) = false := by simpa using htl
      right
      rw [if_neg (fun hc => htl hc.2)]
      refine ⟨?_, htl'⟩
      by_cases hle : l = "en"
      · rw [if_neg]
        · rfl
        · intro hc
          exact htl (hle ▸ hc.2)
      · rw [if_neg (fun hc => hle hc.1)]
        rfl
  have hloopEn := rget_filterLoop cfg.languages name [] "en"
  rw [show rget ([] : RMap) "en" = none from rfl] at hloopEn
  set F := filterName cfg name with hFeq
  rcases hv : rget name "en" with _ | v
  · have hF : F = filterLoop cfg.languages name [] := by
      rw [hFeq]; simp [filterName, hv]
    have hFen : rget F "en" = none := by
      rw [hFeq, rget_filterName]; simp [hv, truthyS]
    calc filterName cfg F = filterLoop cfg.languages name [] := by
          simp [filterName, hFen, hcongr]
      _ = F := hF.symm
  · by_cases hne : v = ""
    · have hF : F = filterLoop cfg.languages name [] := by
        rw [hFeq]; simp [filterName, hv, hne]
      have hFen : rget F "en" = none := by
        rw [hFeq, rget_filterName]; simp [hv, hne, truthyS]
      calc filterName cfg F = filterLoop cfg.languages name [] := by
            simp [filterName, hFen, hcongr]
        _ = F := hF.symm
    · have ht : truthyS (rget name "en") = true := by simp [hv, truthyS, hne]
      have hFen : rget F "en" = some v := by
        rw [hFeq, rget_filterName]
        by_cases hen : "en" ∈ cfg.languages ∧ truthyS (rget name "en")
        · rw [if_pos hen, hv]
        · rw [if_neg hen, if_pos ⟨rfl, ht⟩, hv]
      by_cases hen : "en" ∈ cfg.languages ∧ truthyS (rget name "en")
      · have hlf : rget (filterLoop cfg.languages name []) "en" = some v := by
          rw [hloopEn, if_pos hen, hv]
        have htlf : truthyS (rget (filterLoop cfg.languages name []) "en") = true := by
          rw [hlf]; simp [truthyS, hne]
        have hF : F = filterLoop cfg.languages name [] := by
          rw [hFeq]; simp [filterName, hv, htlf]
        calc filterName cfg F = filterLoop cfg.languages name [] := by
              simp [filterName, hFen, hcongr, htlf]
          _ = F := hF.symm
      · have hlf : rget (filterLoop cfg.languages name []) "en" = none := by
          rw [hloopEn, if_neg hen]
        have htlf : truthyS (rget (filterLoop cfg.languages name []) "en") = false := by
          rw [hlf]; rfl
        have hF : F = rset (filterLoop cfg.languages name []) "en" v := by
          rw [hFeq]; simp [filterName, hv, htlf, hne]
        calc filterName cfg F = rset (filterLoop cfg.languages name []) "en" v := by
              simp [filterName, hFen, hcongr, htlf, hne]
          _ = F := hF.symm

/-- The per-city projection is idempotent. -/
theorem filterCity_idem (cfg : GeoDataConfig) (c : City) :
    filterCity cfg (filterCity cfg c) = filterCity cfg c := by
  rcases hcond : cfg.includeCoordinates && c.latitude.isSome && c.longitude.isSome with _ | _
  · simp only [filterCity, hcond, Bool.false_eq_true, if_false]
    have h2 : (cfg.includeCoordinates && Option.isSome (none : Option Rat) &&
        Option.isSome (none : Option Rat)) = false := by simp
    simp [h2, filterName_idem]
  · have h3 : cfg.includeCoordinates = true ∧ c.latitude.isSome = true ∧
        c.longitude.isSome = true := by
      simpa [Bool.and_assoc] using hcond
    obtain ⟨hinc, hlat, hlon⟩ := h3
    simp only [filterCity, hcond, if_true]
    simp [hinc, hlat, hlon, filterName_idem]

/-- The per-region projection is idempotent. -/
theorem filterRegion_idem (cfg : GeoDataConfig) (r : Region) :
    filterRegion cfg (filterRegion cfg r) = filterRegion cfg r := by
  simp only [filterRegion, List.map_map, filterName_idem]
  congr 1
  apply List.map_congr_left
  intro city _
  simp only [Function.comp_apply]
  exact filterCity_idem cfg city

/-- `filterCountryData` is idempotent. -/
theorem filterCountryData_idem (d : CountryData) (cfg : GeoDataConfig) :
    filterCountryData (filterCountryData d cfg) cfg = filterCountryData d cfg := by
  simp only [filterCountryData, List.map_map, filterName_idem]
  congr 1
  apply List.map_congr_left
  intro region _
  simp only [Function.comp_apply]
  exact filterRegion_idem cfg region

/-! ## Serialization roundtrips: what is written to the cache re-validates -/

theorem mapM_map_of {α β : Type} (p : β → Option α) (e : α → β) (l : List α)
    (h : ∀ x ∈ l, p (e x) = some x) : (l.map e).mapM p = some l := by
  induction l with
  | nil => rfl
  | cons x xs ih =>
    have hx := h x (List.mem_cons_self _ _)
    have hxs := ih (fun y hy => h y (List.mem_cons_of_mem _ hy))
    rw [List.map_cons, List.mapM_cons, hx, hxs]
    rfl

theorem parseRecordString_encodeRMap (m : RMap) :
    parseRecordString (encodeRMap m) = some m := by
  simp only [parseRecordString, encodeRMap]
  exact mapM_map_of _ _ m (fun x _ => by simp [parseStr])

theorem parseCity_encodeCity (c : City) : parseCity (encodeCity c) = some c := by
  obtain ⟨name, lat, lon⟩ := c
  rcases lat with _ | a <;> rcases lon with _ | b <;>
    simp [parseCity, encodeCity, optField, jsonLookup, List.find?, parseOptField,
      parseRecordString_encodeRMap, parseNumJ, Option.bind]

theorem parseRegion_encodeRegion (r : Region) :
    parseRegion (encodeRegion r) = some r := by
  obtain ⟨code, name, cities⟩ := r
  have hc : (cities.map encodeCity).mapM parseCity = some cities :=
    mapM_map_of _ _ cities (fun x _ => parseCity_encodeCity x)
  have hc2 : List.mapM.loop parseCity (cities.map encodeCity) [] = some cities := hc
  simp [parseRegion, encodeRegion, jsonLookup, List.find?, parseStr,
    parseRecordString_encodeRMap, hc, hc2, Option.bind]

theorem parseCountryData_encodeCountryData (d : CountryData) :
    parseCountryData (encodeCountryData d) = some d := by
  obtain ⟨code, iso3, name, phone, currency, timezone, flag, regions⟩ := d
  have hr : (regions.map encodeRegion).mapM parseRegion = some regions :=
    mapM_map_of _ _ regions (fun x _ => parseRegion_encodeRegion x)
  have hr2 : List.mapM.loop parseRegion (regions.map encodeRegion) [] = some regions := hr
  rcases iso3 with _ | i <;>
    simp [parseCountryData, encodeCountryData, optField, jsonLookup, List.find?,
      parseStr, parseOptField, parseRecordString_encodeRMap, hr, hr2, Option.bind]

theorem parseIndexEntry_encodeIndexEntry (e : IndexEntry) :
    parseIndexEntry (encodeIndexEntry e) = some e := by
  obtain ⟨en, ar, flag, langs⟩ := e
  have hl : (langs.map Json.str).mapM parseStr = some langs :=
    mapM_map_of _ _ langs (fun x _ => by simp [parseStr])
  have hl2 : List.mapM.loop parseStr (langs.map Json.str) [] = some langs := hl
  rcases ar with _ | a <;>
    simp [parseIndexEntry, encodeIndexEntry, optField, jsonLookup, List.find?,
      parseStr, parseOptField, hl, hl2, Option.bind]

theorem parseRegistryIndex_encodeRegistryIndex (i : RegistryIndex) :
    parseRegistryIndex (encodeRegistryIndex i) = some i := by
  obtain ⟨version, countries⟩ := i
  have hc : (countries.map (fun p => (p.1, encodeIndexEntry p.2))).mapM
      (fun p => (parseIndexEntry p.2).map (fun e => (p.1, e))) = some countries :=
    mapM_map_of _ _ countries (fun x _ => by simp [parseIndexEntry_encodeIndexEntry])
  have hc2 : List.mapM.loop (fun p => (parseIndexEntry p.2).map (fun e => (p.1, e)))
      (countries.map (fun p => (p.1, encodeIndexEntry p.2))) [] = some countries := hc
  simp [parseRegistryIndex, encodeRegistryIndex, jsonLookup, List.find?, parseStr,
    hc, hc2, Option.bind]

/-! ## Cache lemmas -/

theorem cacheFind_cacheWrite_self (c : Cache) (key : String) (j : Json) (t : Nat) :
    cacheFind (cacheWrite c key j t) key = some (j, t) := by
  induction c with
  | nil => simp [cacheWrite, cacheFind, List.find?]
  | cons e rest ih =>
    by_cases he : e.1 = key
    · simp [cacheWrite, he, cacheFind, List.find?]
    · simp only [cacheWrite]
      rw [if_neg he]
      simpa [cacheFind, List.find?, he] using ih

theorem mem_cacheWrite (c : Cache) (key : String) (j : Json) (t : Nat)
    (e : String × Json × Nat) (h : e ∈ cacheWrite c key j t) :
    e = (key, j, t) ∨ e ∈ c := by
  induction c with
  | nil => simp [cacheWrite] at h; simp [h]
  | cons q rest ih =>
    by_cases hq : q.1 = key
    · simp only [cacheWrite, if_pos hq] at h
      rcases List.mem_cons.mp h with h | h
      · left; exact h
      · right; exact List.mem_cons_of_mem _ h
    · simp only [cacheWrite, if_neg hq] at h
      rcases List.mem_cons.mp h with h | h
      · right; exact h ▸ List.mem_cons_self _ _
      · rcases ih h with h | h
        · left; exact h
        · right; exact List.mem_cons_of_mem _ h

/-! ## Path lemmas for `fetchRegistry` -/

theorem finishRegistry_none (env : FetchEnv) (c : Cache) (data : Json) (n : Nat)
    (hp : parseRegistryIndex data = none) :
    finishRegistry env c data n = ⟨.ok none, c, [registryInvalidMsg], n⟩ := by
  unfold finishRegistry
  rw [hp]

theorem finishRegistry_some (env : FetchEnv) (c : Cache) (data : Json) (n : Nat)
    (r : RegistryIndex) (hp : parseRegistryIndex data = some r)
    (hrem : env.remote = true) :
    finishRegistry env c data n =
      ⟨.ok (some r), cacheWrite c "registry-index" (encodeRegistryIndex r) env.now,
       [], n⟩ := by
  unfold finishRegistry
  rw [hp]
  simp [hrem]

theorem finishRegistry_result (env : FetchEnv) (c : Cache) (data : Json) (n : Nat) :
    (finishRegistry env c data n).result = .ok (parseRegistryIndex data) ∧
    (finishRegistry env c data n).fetches = n := by
  unfold finishRegistry
  rcases parseRegistryIndex data with _ | r
  · exact ⟨rfl, rfl⟩
  · rcases hrem : env.remote with _ | _ <;> simp [hrem]

theorem fetchRegistry_remote_miss (env : FetchEnv) (c : Cache)
    (hrem : env.remote = true)
    (hrc : readCache c env.now "registry-index" (60 * 60 * 1000) = none) :
    fetchRegistry env c = registryNet env c := by
  unfold fetchRegistry
  rw [hrem]
  simp [hrc]

theorem fetchRegistry_remote_hit (env : FetchEnv) (c : Cache) (j : Json)
    (hrem : env.remote = true)
    (hrc : readCache c env.now "registry-index" (60 * 60 * 1000) = some j) :
    fetchRegistry env c =
      if j.truthy then finishRegistry env c j 0 else registryNet env c := by
  unfold fetchRegistry
  rw [hrem]
  simp [hrc]

theorem registryNet_of_ok (env : FetchEnv) (c : Cache) (j : Json)
    (hn : env.net = .ok j) : registryNet env c = finishRegistry env c j 1 := by
  unfold registryNet
  rw [hn]

theorem registryNet_of_err (env : FetchEnv) (c : Cache) (e : String)
    (hn : env.net = .error e) :
    registryNet env c =
      match readStaleCache c "registry-index" with
      | some stale =>
        if stale.truthy then
          let out := finishRegistry env c stale 1
          { out with warnings := netWarnMsg :: out.warnings }
        else ⟨.error e, c, [], 1⟩
      | none => ⟨.error e, c, [], 1⟩ := by
  unfold registryNet
  rw [hn]

theorem finishRegistry_ok_cache (env : FetchEnv) (c : Cache) (data : Json) (n : Nat)
    (r : RegistryIndex) (hrem : env.remote = true)
    (hres : (finishRegistry env c data n).result = .ok (some r)) :
    (finishRegistry env c data n).cache =
      cacheWrite c "registry-index" (encodeRegistryIndex r) env.now := by
  rcases hp : parseRegistryIndex data with _ | r2
  · rw [finishRegistry_none env c data n hp] at hres
    simp at hres
  · rw [finishRegistry_some env c data n r2 hp hrem] at hres ⊢
    simp at hres
    rw [hres]

theorem registryNet_ok_cache (env : FetchEnv) (c : Cache) (r : RegistryIndex)
    (hrem : env.remote = true)
    (hres : (registryNet env c).result = .ok (some r)) :
    (registryNet env c).cache =
      cacheWrite c "registry-index" (encodeRegistryIndex r) env.now := by
  rcases hn : env.net with e | j
  · rw [registryNet_of_err env c e hn] at hres ⊢
    rcases hs : readStaleCache c "registry-index" with _ | stale
    · simp only [hs] at hres
      simp at hres
    · simp only [hs] at hres ⊢
      rcases ht : stale.truthy with _ | _
      · simp only [ht, Bool.false_eq_true, if_false] at hres
        simp at hres
      · simp only [ht, if_true] at hres ⊢
        exact finishRegistry_ok_cache env c stale 1 r hrem hres
  · rw [registryNet_of_ok env c j hn] at hres ⊢
    exact finishRegistry_ok_cache env c j 1 r hrem hres

theorem fetchRegistry_ok_cache (env : FetchEnv) (c : Cache) (r : RegistryIndex)
    (hrem : env.remote = true)
    (hres : (fetchRegistry env c).result = .ok (some r)) :
    (fetchRegistry env c).cache =
      cacheWrite c "registry-index" (encodeRegistryIndex r) env.now := by
  rcases hrc : readCache c env.now "registry-index" (60 * 60 * 1000) with _ | cached
  · rw [fetchRegistry_remote_miss env c hrem hrc] at hres ⊢
    exact registryNet_ok_cache env c r hrem hres
  · rw [fetchRegistry_remote_hit env c cached hrem hrc] at hres ⊢
    rcases ht : cached.truthy with _ | _
    · simp only [ht, Bool.false_eq_true, if_false] at hres ⊢
      exact registryNet_ok_cache env c r hrem hres
    · simp only [ht, if_true] at hres ⊢
      exact finishRegistry_ok_cache env c cached 0 r hrem hres

/-! ## Path lemmas for `fetchCountry` -/

theorem finishCountry_none (code : String) (config : GeoDataConfig) (env : FetchEnv)
    (c : Cache) (raw : Json) (n : Nat) (hp : parseCountryData raw = none) :
    finishCountry code config env c raw n = ⟨.ok none, c, [countryInvalidMsg code], n⟩ := by
  unfold finishCountry
  rw [hp]

theorem finishCountry_some (code : String) (config : GeoDataConfig) (env : FetchEnv)
    (c : Cache) (raw : Json) (n : Nat) (d : CountryData)
    (hp : parseCountryData raw = some d) (hrem : env.remote = true) :
    finishCountry code config env c raw n =
      ⟨.ok (some (filterCountryData d config)),
       cacheWrite c ("country-" ++ code) (encodeCountryData d) env.now, [], n⟩ := by
  unfold finishCountry
  rw [hp]
  simp [hrem]

theorem finishCountry_result (code : String) (config : GeoDataConfig) (env : FetchEnv)
    (c : Cache) (raw : Json) (n : Nat) :
    (finishCountry code config env c raw n).result =
      .ok ((parseCountryData raw).map (fun d => filterCountryData d config)) ∧
    (finishCountry code config env c raw n).fetches = n := by
  unfold finishCountry
  rcases parseCountryData raw with _ | d
  · exact ⟨rfl, rfl⟩
  · rcases hrem : env.remote with _ | _ <;> simp [hrem]

theorem fetchCountry_remote_miss (code : String) (config : GeoDataConfig)
    (env : FetchEnv) (c : Cache) (hrem : env.remote = true)
    (hrc : readCache c env.now ("country-" ++ code) (24 * 60 * 60 * 1000) = none) :
    fetchCountry code config env c = countryNet code config env c := by
  unfold fetchCountry
  rw [hrem]
  simp [hrc]

theorem fetchCountry_remote_hit (code : String) (config : GeoDataConfig)
    (env : FetchEnv) (c : Cache) (j : Json) (hrem : env.remote = true)
    (hrc : readCache c env.now ("country-" ++ code) (24 * 60 * 60 * 1000) = some j) :
    fetchCountry code config env c =
      if j.truthy then finishCountry code config env c j 0
      else countryNet code config env c := by
  unfold fetchCountry
  rw [hrem]
  simp [hrc]

theorem countryNet_of_ok (code : String) (config : GeoDataConfig) (env : FetchEnv)
    (c : Cache) (j : Json) (hn : env.net = .ok j) :
    countryNet code config env c = finishCountry code config env c j 1 := by
  unfold countryNet
  rw [hn]

theorem countryNet_of_err (code : String) (config : GeoDataConfig) (env : FetchEnv)
    (c : Cache) (e : String) (hn : env.net = .error e) :
    countryNet code config env c =
      match readStaleCache c ("country-" ++ code) with
      | some stale =>
        if stale.truthy then
          let out := finishCountry code config env c stale 1
          { out with warnings := netWarnMsg :: out.warnings }
        else ⟨.error e, c, [], 1⟩
      | none => ⟨.error e, c, [], 1⟩ := by
  unfold countryNet
  rw [hn]

theorem finishCountry_ok_cache (code : String) (config : GeoDataConfig)
    (env : FetchEnv) (c : Cache) (raw : Json) (n : Nat) (v : CountryData)
    (hrem : env.remote = true)
    (hres : (finishCountry code config env c raw n).result = .ok (some v)) :
    ∃ d, parseCountryData raw = some d ∧ v = filterCountryData d config ∧
      (finishCountry code config env c raw n).cache =
        cacheWrite c ("country-" ++ code) (encodeCountryData d) env.now := by
  rcases hp : parseCountryData raw with _ | d
  · rw [finishCountry_none code config env c raw n hp] at hres
    simp at hres
  · rw [finishCountry_some code config env c raw n d hp hrem] at hres ⊢
    simp at hres
    exact ⟨d, rfl, hres.symm, rfl⟩

theorem countryNet_ok_cache (code : String) (config : GeoDataConfig)
    (env : FetchEnv) (c : Cache) (v : CountryData) (hrem : env.remote = true)
    (hres : (countryNet code config env c).result = .ok (some v)) :
    ∃ d, v = filterCountryData d config ∧
      (countryNet code config env c).cache =
        cacheWrite c ("country-" ++ code) (encodeCountryData d) env.now := by
  rcases hn : env.net with e | j
  · rw [countryNet_of_err code config env c e hn] at hres ⊢
    rcases hs : readStaleCache c ("country-" ++ code) with _ | stale
    · simp only [hs] at hres
      simp at hres
    · simp only [hs] at hres ⊢
      rcases ht : stale.truthy with _ | _
      · simp only [ht, Bool.false_eq_true, if_false] at hres
        simp at hres
      · simp only [ht, if_true] at hres ⊢
        obtain ⟨d, _, hv, hc⟩ := finishCountry_ok_cache code config env c stale 1 v hrem hres
        exact ⟨d, hv, hc⟩
  · rw [countryNet_of_ok code config env c j hn] at hres ⊢
    obtain ⟨d, _, hv, hc⟩ := finishCountry_ok_cache code config env c j 1 v hrem hres
    exact ⟨d, hv, hc⟩

theorem fetchCountry_ok_cache (code : String) (config : GeoDataConfig)
    (env : FetchEnv) (c : Cache) (v : CountryData) (hrem : env.remote = true)
    (hres : (fetchCountry code config env c).result = .ok (some v)) :
    ∃ d, v = filterCountryData d config ∧
      (fetchCountry code config env c).cache =
        cacheWrite c ("country-" ++ code) (encodeCountryData d) env.now := by
  rcases hrc : readCache c env.now ("country-" ++ code) (24 * 60 * 60 * 1000) with _ | cached
  · rw [fetchCountry_remote_miss code config env c hrem hrc] at hres ⊢
    exact countryNet_ok_cache code config env c v hrem hres
  · rw [fetchCountry_remote_hit code config env c cached hrem hrc] at hres ⊢
    rcases ht : cached.truthy with _ | _
    · simp only [ht, Bool.false_eq_true, if_false] at hres ⊢
      exact countryNet_ok_cache code config env c v hrem hres
    · simp only [ht, if_true] at hres ⊢
      obtain ⟨d, _, hv, hc⟩ := finishCountry_ok_cache code config env c cached 0 v hrem hres
      exact ⟨d, hv, hc⟩

/-! ## The validate-before-cache invariant -/

theorem registry_key_ne_country (code : String) :
    ("registry-index" : String) ≠ "country-" ++ code := by
  intro h
  have hd := congrArg String.data h
  rw [String.data_append] at hd
  have h2 : ("registry-index".data).head? = ("country-".data ++ code.data).head? := by
    rw [hd]
  simp [String.data] at h2

/-- An entry is valid when its payload re-validates under the schema its key
demands: the index schema for `registry-index`, the country schema for
`country-<code>`. -/
def entryValid (e : String × Json × Nat) : Prop :=
  (e.1 = "registry-index" → (parseRegistryIndex e.2.1).isSome = true) ∧
  (∀ code : String, e.1 = "country-" ++ code → (parseCountryData e.2.1).isSome = true)

/-- The central invariant: every cached payload passed validation. -/
def cacheValid (c : Cache) : Prop := ∀ e ∈ c, entryValid e

theorem cacheValid_write_registry (c : Cache) (r : RegistryIndex) (t : Nat)
    (h : cacheValid c) :
    cacheValid (cacheWrite c "registry-index" (encodeRegistryIndex r) t) := by
  intro e he
  rcases mem_cacheWrite c _ _ _ e he with he | he
  · subst he
    refine ⟨fun _ => ?_, fun code hc => absurd hc (registry_key_ne_country code)⟩
    simp [parseRegistryIndex_encodeRegistryIndex]
  · exact h e he

theorem cacheValid_write_country (c : Cache) (code : String) (d : CountryData)
    (t : Nat) (h : cacheValid c) :
    cacheValid (cacheWrite c ("country-" ++ code) (encodeCountryData d) t) := by
  intro e he
  rcases mem_cacheWrite c _ _ _ e he with he | he
  · subst he
    refine ⟨fun hc => absurd hc.symm (registry_key_ne_country code), fun code2 hc => ?_⟩
    simp [parseCountryData_encodeCountryData]
  · exact h e he

theorem finishRegistry_preserves (env : FetchEnv) (c : Cache) (data : Json) (n : Nat)
    (h : cacheValid c) : cacheValid (finishRegistry env c data n).cache := by
  rcases hp : parseRegistryIndex data with _ | r
  · rw [finishRegistry_none env c data n hp]
    exact h
  · rcases hrem : env.remote with _ | _
    · have heq : finishRegistry env c data n = ⟨.ok (some r), c, [], n⟩ := by
        unfold finishRegistry
        rw [hp]
        simp [hrem]
      rw [heq]
      exact h
    · rw [finishRegistry_some env c data n r hp hrem]
      exact cacheValid_write_registry c r env.now h

theorem registryNet_preserves (env : FetchEnv) (c : Cache) (h : cacheValid c) :
    cacheValid (registryNet env c).cache := by
  rcases hn : env.net with e | j
  · rw [registryNet_of_err env c e hn]
    rcases hs : readStaleCache c "registry-index" with _ | stale
    · exact h
    · rcases ht : stale.truthy with _ | _
      · simp only [ht, Bool.false_eq_true, if_false]
        exact h
      · simp only [ht, if_true]
        exact finishRegistry_preserves env c stale 1 h
  · rw [registryNet_of_ok env c j hn]
    exact finishRegistry_preserves env c j 1 h

theorem fetchRegistry_preserves (env : FetchEnv) (c : Cache) (h : cacheValid c) :
    cacheValid (fetchRegistry env c).cache := by
  rcases hrem : env.remote with _ | _
  · have heq : fetchRegistry env c =
        match env.net with
        | .ok j => finishRegistry env c j 0
        | .error e => ⟨.error e, c, [], 0⟩ := by
      unfold fetchRegistry
      rw [hrem]
      simp
    rw [heq]
    rcases env.net with e | j
    · exact h
    · exact finishRegistry_preserves env c j 0 h
  · rcases hrc : readCache c env.now "registry-index" (60 * 60 * 1000) with _ | cached
    · rw [fetchRegistry_remote_miss env c hrem hrc]
      exact registryNet_preserves env c h
    · rw [fetchRegistry_remote_hit env c cached hrem hrc]
      rcases ht : cached.truthy with _ | _
      · simp only [ht, Bool.false_eq_true, if_false]
        exact registryNet_preserves env c h
      · simp only [ht, if_true]
        exact finishRegistry_preserves env c cached 0 h

theorem finishCountry_preserves (code : String) (config : GeoDataConfig)
    (env : FetchEnv) (c : Cache) (raw : Json) (n : Nat) (h : cacheValid c) :
    cacheValid (finishCountry code config env c raw n).cache := by
  rcases hp : parseCountryData raw with _ | d
  · rw [finishCountry_none code config env c raw n hp]
    exact h
  · rcases hrem : env.remote with _ | _
    · have heq : finishCountry code config env c raw n =
          ⟨.ok (some (filterCountryData d config)), c, [], n⟩ := by
        unfold finishCountry
        rw [hp]
        simp [hrem]
      rw [heq]
      exact h
    · rw [finishCountry_some code config env c raw n d hp hrem]
      exact cacheValid_write_country c code d env.now h

theorem countryNet_preserves (code : String) (config : GeoDataConfig)
    (env : FetchEnv) (c : Cache) (h : cacheValid c) :
    cacheValid (countryNet code config env c).cache := by
  rcases hn : env.net with e | j
  · rw [countryNet_of_err code config env c e hn]
    rcases hs : readStaleCache c ("country-" ++ code) with _ | stale
    · exact h
    · rcases ht : stale.truthy with _ | _
      · simp only [ht, Bool.false_eq_true, if_false]
        exact h
      · simp only [ht, if_true]
        exact finishCountry_preserves code config env c stale 1 h
  · rw [countryNet_of_ok code config env c j hn]
    exact finishCountry_preserves code config env c j 1 h

theorem fetchCountry_preserves (code : String) (config : GeoDataConfig)
    (env : FetchEnv) (c : Cache) (h : cacheValid c) :
    cacheValid (fetchCountry code config env c).cache := by
  rcases hrem : env.remote with _ | _
  · have heq : fetchCountry code config env c =
        match env.net with
        | .ok j => finishCountry code config env c j 0
        | .error e => ⟨.error e, c, [], 0⟩ := by
      unfold fetchCountry
      rw [hrem]
      simp
    rw [heq]
    rcases env.net with e | j
    · exact h
    · exact finishCountry_preserves code config env c j 0 h
  · rcases hrc : readCache c env.now ("country-" ++ code) (24 * 60 * 60 * 1000) with _ | cached
    · rw [fetchCountry_remote_miss code config env c hrem hrc]
      exact countryNet_preserves code config env c h
    · rw [fetchCountry_remote_hit code config env c cached hrem hrc]
      rcases ht : cached.truthy with _ | _
      · simp only [ht, Bool.false_eq_true, if_false]
        exact countryNet_preserves code config env c h
      · simp only [ht, if_true]
        exact finishCountry_preserves code config env c cached 0 h

/-! ## Sorting lemmas for the code generator -/

theorem char_eq_of_toNat (a b : Char) (h : a.toNat = b.toNat) : a = b := by
  have h5 : a.val.toBitVec = b.val.toBitVec := BitVec.eq_of_toNat_eq h
  exact Char.eq_of_val_eq (congrArg UInt32.mk h5)

theorem charsLe_cons_iff (a b : Char) (as bs : List Char) :
    charsLe (a :: as) (b :: bs) = true ↔
      a.toNat < b.toNat ∨ (a.toNat = b.toNat ∧ charsLe as bs = true) := by
  by_cases h1 : a.toNat < b.toNat
  · simp [charsLe, h1]
  · by_cases h2 : b.toNat < a.toNat
    · simp [charsLe, h1, h2]
      omega
    · have he : a.toNat = b.toNat := Nat.le_antisymm (Nat.not_lt.mp h2) (Nat.not_lt.mp h1)
      simp [charsLe, h1, h2, he]

theorem charsLe_total : ∀ a b : List Char, charsLe a b = true ∨ charsLe b a = true
  | [], _ => Or.inl rfl
  | _ :: _, [] => Or.inr rfl
  | a :: as, b :: bs => by
    rw [charsLe_cons_iff, charsLe_cons_iff]
    rcases Nat.lt_trichotomy a.toNat b.toNat with h | h | h
    · exact Or.inl (Or.inl h)
    · rcases charsLe_total as bs with hr | hr
      · exact Or.inl (Or.inr ⟨h, hr⟩)
      · exact Or.inr (Or.inr ⟨h.symm, hr⟩)
    · exact Or.inr (Or.inl h)

theorem charsLe_antisymm : ∀ a b : List Char,
    charsLe a b = true → charsLe b a = true → a = b
  | [], [], _, _ => rfl
  | [], _ :: _, _, h2 => by simp [charsLe] at h2
  | _ :: _, [], h1, _ => by simp [charsLe] at h1
  | a :: as, b :: bs, h1, h2 => by
    rw [charsLe_cons_iff] at h1 h2
    rcases h1 with h1 | ⟨he1, hr1⟩
    · rcases h2 with h2 | ⟨he2, _⟩ <;> omega
    · rcases h2 with h2 | ⟨_, hr2⟩
      · omega
      · rw [char_eq_of_toNat a b he1, charsLe_antisymm as bs hr1 hr2]

theorem charsLe_trans : ∀ a b c : List Char,
    charsLe a b = true → charsLe b c = true → charsLe a c = true
  | [], _, _, _, _ => rfl
  | _ :: _, [], _, h1, _ => by simp [charsLe] at h1
  | _ :: _, _ :: _, [], _, h2 => by simp [charsLe] at h2
  | a :: as, b :: bs, c :: cs, h1, h2 => by
    rw [charsLe_cons_iff] at h1 h2 ⊢
    rcases h1 with h1 | ⟨he1, hr1⟩
    · rcases h2 with h2 | ⟨he2, _⟩
      · exact Or.inl (by omega)
      · exact Or.inl (by omega)
    · rcases h2 with h2 | ⟨he2, hr2⟩
      · exact Or.inl (by omega)
      · exact Or.inr ⟨by omega, charsLe_trans as bs cs hr1 hr2⟩

/-- The order JS `Array.prototype.sort()` applies to the installed codes. -/
def strLeP (a b : String) : Prop := strLe a b = true

theorem strLeP_total (a b : String) : strLeP a b ∨ strLeP b a :=
  charsLe_total a.data b.data

theorem strLeP_trans (a b c : String) (h1 : strLeP a b) (h2 : strLeP b c) : strLeP a c :=
  charsLe_trans a.data b.data c.data h1 h2

theorem strLeP_antisymm (a b : String) (h1 : strLeP a b) (h2 : strLeP b a) : a = b := by
  have hd : a.data = b.data := charsLe_antisymm a.data b.data h1 h2
  exact congrArg String.mk hd

instance : IsAntisymm String strLeP := ⟨strLeP_antisymm⟩

theorem insertStr_perm (s : String) (l : List String) :
    (insertStr s l).Perm (s :: l) := by
  induction l with
  | nil => exact List.Perm.refl _
  | cons t ts ih =>
    by_cases h : strLe s t
    · simp [insertStr, h]
    · simp only [insertStr, if_neg h]
      exact (List.Perm.cons t ih).trans (List.Perm.swap s t ts)

theorem sortStrings_perm (l : List String) : (sortStrings l).Perm l := by
  induction l with
  | nil => exact List.Perm.refl _
  | cons s ss ih =>
    exact (insertStr_perm s (sortStrings ss)).trans (List.Perm.cons s ih)

theorem insertStr_sorted (s : String) (l : List String) (h : l.Sorted strLeP) :
    (insertStr s l).Sorted strLeP := by
  induction l with
  | nil => simp [insertStr]
  | cons t ts ih =>
    rw [List.sorted_cons] at h
    by_cases hle : strLe s t
    · simp only [insertStr, if_pos hle]
      rw [List.sorted_cons]
      refine ⟨fun b hb => ?_, List.sorted_cons.mpr h⟩
      rcases List.mem_cons.mp hb with hb | hb
      · exact hb ▸ hle
      · exact strLeP_trans s t b hle (h.1 b hb)
    · simp only [insertStr, if_neg hle]
      rw [List.sorted_cons]
      refine ⟨fun b hb => ?_, ih h.2⟩
      have hb2 := (insertStr_perm s ts).mem_iff.mp hb
      rcases List.mem_cons.mp hb2 with hb2 | hb2
      · rw [hb2]
        rcases strLeP_total s t with hst | hts
        · exact absurd hst hle
        · exact hts
      · exact h.1 b hb2

theorem sortStrings_sorted (l : List String) : (sortStrings l).Sorted strLeP := by
  induction l with
  | nil => simp [sortStrings]
  | cons s ss ih => exact insertStr_sorted s (sortStrings ss) ih

/-- Sorting is invariant under the order the files were produced in. -/
theorem sortStrings_perm_invariant (l₁ l₂ : List String) (h : l₁.Perm l₂) :
    sortStrings l₁ = sortStrings l₂ :=
  List.eq_of_perm_of_sorted
    ((sortStrings_perm l₁).trans (h.trans (sortStrings_perm l₂).symm))
    (sortStrings_sorted l₁) (sortStrings_sorted l₂)

/-! ## Concrete fixtures used by witnesses and counterexamples -/

/-- A small valid registry index. -/
def sampleIndex : RegistryIndex :=
  ⟨"1.0.0", [("sa", ⟨"Saudi Arabia", none, "flag-sa", ["ar", "en"]⟩)]⟩

/-- A small valid country dataset. -/
def sampleCountry : CountryData :=
  ⟨"sa", some "SAU", [("en", "Saudi Arabia"), ("ar", "SA-ar")], "+966", "SAR",
   "Asia/Riyadh", "flag-sa",
   [⟨"01", [("en", "Riyadh Region")], [⟨[("en", "Riyadh")], some 24, some 46⟩]⟩]⟩

/-- A config requesting English with coordinates. -/
def cfgEn : GeoDataConfig := ⟨none, "./src/data/geo", ["en"], true, true⟩

/-- A config requesting Arabic without coordinates. -/
def cfgArOnly : GeoDataConfig := ⟨none, "./src/data/geo", ["ar"], false, true⟩

/-! ## The claims -/

/-- C1: validate-before-cache. In remote mode, when the fresh cache misses,
the network fetch succeeds, and the payload fails schema validation, the
operation warns once, returns the absent outcome, and leaves the cache
exactly as it was — and on every path, both entry points preserve the
invariant that all cached payloads re-validate. -/
theorem validateBeforeCache :
    (∀ (env : FetchEnv) (c : Cache) (p : Json),
      env.remote = true →
      readCache c env.now "registry-index" (60 * 60 * 1000) = none →
      env.net = .ok p →
      parseRegistryIndex p = none →
      (fetchRegistry env c).result = .ok none ∧
      (fetchRegistry env c).cache = c ∧
      (fetchRegistry env c).warnings = [registryInvalidMsg]) ∧
    (∀ (code : String) (config : GeoDataConfig) (env : FetchEnv) (c : Cache) (p : Json),
      env.remote = true →
      readCache c env.now ("country-" ++ code) (24 * 60 * 60 * 1000) = none →
      env.net = .ok p →
      parseCountryData p = none →
      (fetchCountry code config env c).result = .ok none ∧
      (fetchCountry code config env c).cache = c ∧
      (fetchCountry code config env c).warnings = [countryInvalidMsg code]) ∧
    (∀ (env : FetchEnv) (c : Cache),
      cacheValid c → cacheValid (fetchRegistry env c).cache) ∧
    (∀ (code : String) (config : GeoDataConfig) (env : FetchEnv) (c : Cache),
      cacheValid c → cacheValid (fetchCountry code config env c).cache) := by
  refine ⟨?_, ?_, fetchRegistry_preserves, fetchCountry_preserves⟩
  · intro env c p hrem hrc hn hp
    have h1 : fetchRegistry env c = ⟨.ok none, c, [registryInvalidMsg], 1⟩ := by
      rw [fetchRegistry_remote_miss env c hrem hrc, registryNet_of_ok env c p hn,
        finishRegistry_none env c p 1 hp]
    rw [h1]
    exact ⟨rfl, rfl, rfl⟩
  · intro code config env c p hrem hrc hn hp
    have h1 : fetchCountry code config env c =
        ⟨.ok none, c, [countryInvalidMsg code], 1⟩ := by
      rw [fetchCountry_remote_miss code config env c hrem hrc,
        countryNet_of_ok code config env c p hn,
        finishCountry_none code config env c p 1 hp]
    rw [h1]
    exact ⟨rfl, rfl, rfl⟩

/-- C1 witness: an invalid remote index payload against an empty cache. -/
theorem validateBeforeCache_witness :
    (fetchRegistry ⟨true, 0, .ok (Json.str "bad")⟩ []).result = .ok none ∧
    (fetchRegistry ⟨true, 0, .ok (Json.str "bad")⟩ []).cache = [] ∧
    (fetchRegistry ⟨true, 0, .ok (Json.str "bad")⟩ []).warnings = [registryInvalidMsg] :=
  validateBeforeCache.1 ⟨true, 0, .ok (Json.str "bad")⟩ [] (Json.str "bad")
    rfl rfl rfl rfl

/-- C2 counterexample: a stale cache entry exists for the key (so clause (a)
of the claim applies) but the operation emits two warnings, not exactly one:
the stale payload is re-validated and fails, adding a validation warning. -/
theorem staleFallback_counterexample :
    (fetchRegistry ⟨true, 7200000, .error "ECONNREFUSED"⟩
        [("registry-index", Json.str "bad", 0)]).warnings =
      [netWarnMsg, registryInvalidMsg] ∧
    (fetchRegistry ⟨true, 7200000, .error "ECONNREFUSED"⟩
        [("registry-index", Json.str "bad", 0)]).result = .ok none :=
  ⟨rfl, rfl⟩

/-- C2 amended: on a fresh-cache miss with a network failure, (a) if a cache
entry of any age exists, is truthy, and passes validation, the operation
emits exactly one warning and returns the result computed from the stale
entry; (b) if no entry exists, the network error is propagated unchanged
with no warning. (The claim as stated fails when the stale entry does not
re-validate: a second, validation warning is emitted.) -/
theorem staleFallback_amended :
    (∀ (env : FetchEnv) (c : Cache) (e : String) (j : Json) (t : Nat)
        (r : RegistryIndex),
      env.remote = true →
      readCache c env.now "registry-index" (60 * 60 * 1000) = none →
      env.net = .error e →
      cacheFind c "registry-index" = some (j, t) →
      j.truthy = true →
      parseRegistryIndex j = some r →
      (fetchRegistry env c).result = .ok (some r) ∧
      (fetchRegistry env c).warnings = [netWarnMsg]) ∧
    (∀ (env : FetchEnv) (c : Cache) (e : String),
      env.remote = true →
      readCache c env.now "registry-index" (60 * 60 * 1000) = none →
      env.net = .error e →
      cacheFind c "registry-index" = none →
      (fetchRegistry env c).result = .error e ∧
      (fetchRegistry env c).warnings = []) ∧
    (∀ (code : String) (config : GeoDataConfig) (env : FetchEnv) (c : Cache)
        (e : String) (j : Json) (t : Nat) (d : CountryData),
      env.remote = true →
      readCache c env.now ("country-" ++ code) (24 * 60 * 60 * 1000) = none →
      env.net = .error e →
      cacheFind c ("country-" ++ code) = some (j, t) →
      j.truthy = true →
      parseCountryData j = some d →
      (fetchCountry code config env c).result =
        .ok (some (filterCountryData d config)) ∧
      (fetchCountry code config env c).warnings = [netWarnMsg]) ∧
    (∀ (code : String) (config : GeoDataConfig) (env : FetchEnv) (c : Cache)
        (e : String),
      env.remote = true →
      readCache c env.now ("country-" ++ code) (24 * 60 * 60 * 1000) = none →
      env.net = .error e →
      cacheFind c ("country-" ++ code) = none →
      (fetchCountry code config env c).result = .error e ∧
      (fetchCountry code config env c).warnings = []) := by
  refine ⟨?_, ?_, ?_, ?_⟩
  · intro env c e j t r hrem hrc hn hfind htr hp
    have hstale : readStaleCache c "registry-index" = some j := by
      simp [readStaleCache, hfind]
    have h1 : fetchRegistry env c =
        ⟨.ok (some r), cacheWrite c "registry-index" (encodeRegistryIndex r) env.now,
         [netWarnMsg], 1⟩ := by
      rw [fetchRegistry_remote_miss env c hrem hrc, registryNet_of_err env c e hn]
      simp only [hstale, htr, if_true]
      rw [finishRegistry_some env c j 1 r hp hrem]
    rw [h1]
    exact ⟨rfl, rfl⟩
  · intro env c e hrem hrc hn hfind
    have hstale : readStaleCache c "registry-index" = none := by
      simp [readStaleCache, hfind]
    have h1 : fetchRegistry env c = ⟨.error e, c, [], 1⟩ := by
      rw [fetchRegistry_remote_miss env c hrem hrc, registryNet_of_err env c e hn]
      simp only [hstale]
    rw [h1]
    exact ⟨rfl, rfl⟩
  · intro code config env c e j t d hrem hrc hn hfind htr hp
    have hstale : readStaleCache c ("country-" ++ code) = some j := by
      simp [readStaleCache, hfind]
    have h1 : fetchCountry code config env c =
        ⟨.ok (some (filterCountryData d config)),
         cacheWrite c ("country-" ++ code) (encodeCountryData d) env.now,
         [netWarnMsg], 1⟩ := by
      rw [fetchCountry_remote_miss code config env c hrem hrc,
        countryNet_of_err code config env c e hn]
      simp only [hstale, htr, if_true]
      rw [finishCountry_some code config env c j 1 d hp hrem]
    rw [h1]
    exact ⟨rfl, rfl⟩
  · intro code config env c e hrem hrc hn hfind
    have hstale : readStaleCache c ("country-" ++ code) = none := by
      simp [readStaleCache, hfind]
    have h1 : fetchCountry code config env c = ⟨.error e, c, [], 1⟩ := by
      rw [fetchCountry_remote_miss code config env c hrem hrc,
        countryNet_of_err code config env c e hn]
      simp only [hstale]
    rw [h1]
    exact ⟨rfl, rfl⟩

/-- C2 witness: a two-hour-old valid index entry under a one-hour window with
the network down yields the stale result and exactly one warning; an empty
cache propagates the error. -/
theorem staleFallback_witness :
    ((fetchRegistry ⟨true, 7200000, .error "down"⟩
        [("registry-index", encodeRegistryIndex sampleIndex, 0)]).result =
      .ok (some sampleIndex) ∧
     (fetchRegistry ⟨true, 7200000, .error "down"⟩
        [("registry-index", encodeRegistryIndex sampleIndex, 0)]).warnings =
      [netWarnMsg]) ∧
    ((fetchRegistry ⟨true, 7200000, .error "down"⟩ []).result = .error "down" ∧
     (fetchRegistry ⟨true, 7200000, .error "down"⟩ []).warnings = []) :=
  ⟨staleFallback_amended.1 ⟨true, 7200000, .error "down"⟩
      [("registry-index", encodeRegistryIndex sampleIndex, 0)] "down"
      (encodeRegistryIndex sampleIndex) 0 sampleIndex rfl rfl rfl rfl rfl rfl,
   staleFallback_amended.2.1 ⟨true, 7200000, .error "down"⟩ [] "down"
      rfl rfl rfl rfl⟩

/-- C3 counterexample: a fresh (one-second-old, window one hour) truthy cache
entry that fails the validator makes the cache hit produce the absent
(invalid) outcome — so a cache hit does re-run schema validation, contrary
to the claim. No network fetch happens. -/
theorem cacheHit_counterexample :
    (fetchRegistry ⟨true, 1000, .error "down"⟩
        [("registry-index", Json.str "bad", 0)]).result = .ok none ∧
    (fetchRegistry ⟨true, 1000, .error "down"⟩
        [("registry-index", Json.str "bad", 0)]).fetches = 0 ∧
    (fetchRegistry ⟨true, 1000, .error "down"⟩
        [("registry-index", Json.str "bad", 0)]).warnings = [registryInvalidMsg] :=
  ⟨rfl, rfl, rfl⟩

/-- C3 amended: on a fresh truthy cache hit, zero network fetches are
performed, but the cached payload is re-validated: the result is exactly the
outcome of running the schema on the cached payload (the value when it
parses, the absent outcome when it does not). -/
theorem cacheHit_amended :
    (∀ (env : FetchEnv) (c : Cache) (j : Json),
      env.remote = true →
      readCache c env.now "registry-index" (60 * 60 * 1000) = some j →
      j.truthy = true →
      (fetchRegistry env c).fetches = 0 ∧
      (fetchRegistry env c).result = .ok (parseRegistryIndex j)) ∧
    (∀ (code : String) (config : GeoDataConfig) (env : FetchEnv) (c : Cache)
        (j : Json),
      env.remote = true →
      readCache c env.now ("country-" ++ code) (24 * 60 * 60 * 1000) = some j →
      j.truthy = true →
      (fetchCountry code config env c).fetches = 0 ∧
      (fetchCountry code config env c).result =
        .ok ((parseCountryData j).map (fun d => filterCountryData d config))) := by
  constructor
  · intro env c j hrem hrc htr
    rw [fetchRegistry_remote_hit env c j hrem hrc]
    simp only [htr, if_true]
    exact ⟨(finishRegistry_result env c j 0).2, (finishRegistry_result env c j 0).1⟩
  · intro code config env c j hrem hrc htr
    rw [fetchCountry_remote_hit code config env c j hrem hrc]
    simp only [htr, if_true]
    exact ⟨(finishCountry_result code config env c j 0).2,
           (finishCountry_result code config env c j 0).1⟩

/-- C3 witness: a fresh valid index entry is served with zero fetches. -/
theorem cacheHit_witness :
    (fetchRegistry ⟨true, 1000, .error "down"⟩
        [("registry-index", encodeRegistryIndex sampleIndex, 0)]).fetches = 0 ∧
    (fetchRegistry ⟨true, 1000, .error "down"⟩
        [("registry-index", encodeRegistryIndex sampleIndex, 0)]).result =
      .ok (parseRegistryIndex (encodeRegistryIndex sampleIndex)) :=
  cacheHit_amended.1 ⟨true, 1000, .error "down"⟩
    [("registry-index", encodeRegistryIndex sampleIndex, 0)]
    (encodeRegistryIndex sampleIndex) rfl rfl rfl

/-- C4: freshness. After a successful remote resolution, a second resolution
of the same key within the freshness window (1 hour for the index, 24 hours
for a dataset) performs zero network fetches and returns the same result,
served from the cache. -/
theorem freshness_no_refetch :
    (∀ (env₁ env₂ : FetchEnv) (c : Cache) (r : RegistryIndex),
      env₁.remote = true → env₂.remote = true →
      (fetchRegistry env₁ c).result = .ok (some r) →
      env₂.now - env₁.now < 60 * 60 * 1000 →
      (fetchRegistry env₂ (fetchRegistry env₁ c).cache).fetches = 0 ∧
      (fetchRegistry env₂ (fetchRegistry env₁ c).cache).result = .ok (some r)) ∧
    (∀ (code : String) (config : GeoDataConfig) (env₁ env₂ : FetchEnv)
        (c : Cache) (v : CountryData),
      env₁.remote = true → env₂.remote = true →
      (fetchCountry code config env₁ c).result = .ok (some v) →
      env₂.now - env₁.now < 24 * 60 * 60 * 1000 →
      (fetchCountry code config env₂ (fetchCountry code config env₁ c).cache).fetches = 0 ∧
      (fetchCountry code config env₂ (fetchCountry code config env₁ c).cache).result =
        .ok (some v)) := by
  constructor
  · intro env₁ env₂ c r hrem1 hrem2 hres1 hlt
    rw [fetchRegistry_ok_cache env₁ c r hrem1 hres1]
    have hfind := cacheFind_cacheWrite_self c "registry-index"
      (encodeRegistryIndex r) env₁.now
    have hrc2 : readCache
        (cacheWrite c "registry-index" (encodeRegistryIndex r) env₁.now)
        env₂.now "registry-index" (60 * 60 * 1000) =
        some (encodeRegistryIndex r) := by
      unfold readCache
      simp only [hfind]
      rw [if_pos hlt]
    have htr : (encodeRegistryIndex r).truthy = true := rfl
    rw [fetchRegistry_remote_hit env₂ _ _ hrem2 hrc2]
    simp only [htr, if_true]
    refine ⟨(finishRegistry_result env₂ _ (encodeRegistryIndex r) 0).2, ?_⟩
    rw [(finishRegistry_result env₂ _ (encodeRegistryIndex r) 0).1,
      parseRegistryIndex_encodeRegistryIndex]
  · intro code config env₁ env₂ c v hrem1 hrem2 hres1 hlt
    obtain ⟨d, hv, hcache⟩ := fetchCountry_ok_cache code config env₁ c v hrem1 hres1
    rw [hcache]
    have hfind := cacheFind_cacheWrite_self c ("country-" ++ code)
      (encodeCountryData d) env₁.now
    have hrc2 : readCache
        (cacheWrite c ("country-" ++ code) (encodeCountryData d) env₁.now)
        env₂.now ("country-" ++ code) (24 * 60 * 60 * 1000) =
        some (encodeCountryData d) := by
      unfold readCache
      simp only [hfind]
      rw [if_pos hlt]
    have htr : (encodeCountryData d).truthy = true := rfl
    rw [fetchCountry_remote_hit code config env₂ _ _ hrem2 hrc2]
    simp only [htr, if_true]
    refine ⟨(finishCountry_result code config env₂ _ (encodeCountryData d) 0).2, ?_⟩
    rw [(finishCountry_result code config env₂ _ (encodeCountryData d) 0).1,
      parseCountryData_encodeCountryData]
    rw [hv]
    rfl

/-- C4 witness: resolve the sample index and dataset once over the network,
then again 1 second later: zero fetches, same results. -/
theorem freshness_no_refetch_witness :
    ((fetchRegistry ⟨true, 2000, .error "down"⟩
        (fetchRegistry ⟨true, 1000, .ok (encodeRegistryIndex sampleIndex)⟩ []).cache).fetches = 0 ∧
     (fetchRegistry ⟨true, 2000, .error "down"⟩
        (fetchRegistry ⟨true, 1000, .ok (encodeRegistryIndex sampleIndex)⟩ []).cache).result =
      .ok (some sampleIndex)) ∧
    ((fetchCountry "sa" cfgEn ⟨true, 2000, .error "down"⟩
        (fetchCountry "sa" cfgEn ⟨true, 1000, .ok (encodeCountryData sampleCountry)⟩ []).cache).fetches = 0 ∧
     (fetchCountry "sa" cfgEn ⟨true, 2000, .error "down"⟩
        (fetchCountry "sa" cfgEn ⟨true, 1000, .ok (encodeCountryData sampleCountry)⟩ []).cache).result =
      .ok (some (filterCountryData sampleCountry cfgEn))) :=
  ⟨freshness_no_refetch.1 ⟨true, 1000, .ok (encodeRegistryIndex sampleIndex)⟩
      ⟨true, 2000, .error "down"⟩ [] sampleIndex rfl rfl rfl (by decide),
   freshness_no_refetch.2 "sa" cfgEn
      ⟨true, 1000, .ok (encodeCountryData sampleCountry)⟩
      ⟨true, 2000, .error "down"⟩ [] (filterCountryData sampleCountry cfgEn)
      rfl rfl rfl (by decide)⟩

/-- C10: config-independent cache contents. On a successful remote dataset
resolution the cache receives the full validated dataset, before filtering;
the caller's config shapes only the returned projection, and two runs with
different configs leave identical caches. -/
theorem cacheConfigIndependent :
    ∀ (code : String) (cfg₁ cfg₂ : GeoDataConfig) (env : FetchEnv) (c : Cache)
      (p : Json) (d : CountryData),
      env.remote = true →
      readCache c env.now ("country-" ++ code) (24 * 60 * 60 * 1000) = none →
      env.net = .ok p →
      parseCountryData p = some d →
      (fetchCountry code cfg₁ env c).cache =
        cacheWrite c ("country-" ++ code) (encodeCountryData d) env.now ∧
      (fetchCountry code cfg₁ env c).result = .ok (some (filterCountryData d cfg₁)) ∧
      (fetchCountry code cfg₁ env c).cache = (fetchCountry code cfg₂ env c).cache := by
  intro code cfg₁ cfg₂ env c p d hrem hrc hn hp
  have h1 : ∀ cfg : GeoDataConfig, fetchCountry code cfg env c =
      ⟨.ok (some (filterCountryData d cfg)),
       cacheWrite c ("country-" ++ code) (encodeCountryData d) env.now, [], 1⟩ := by
    intro cfg
    rw [fetchCountry_remote_miss code cfg env c hrem hrc,
      countryNet_of_ok code cfg env c p hn,
      finishCountry_some code cfg env c p 1 d hp hrem]
  rw [h1 cfg₁, h1 cfg₂]
  exact ⟨rfl, rfl, rfl⟩

/-- C10 witness: the sample dataset fetched under two different configs
caches the same full payload. -/
theorem cacheConfigIndependent_witness :
    (fetchCountry "sa" cfgEn ⟨true, 1000, .ok (encodeCountryData sampleCountry)⟩ []).cache =
      cacheWrite [] ("country-" ++ "sa") (encodeCountryData sampleCountry) 1000 ∧
    (fetchCountry "sa" cfgEn ⟨true, 1000, .ok (encodeCountryData sampleCountry)⟩ []).result =
      .ok (some (filterCountryData sampleCountry cfgEn)) ∧
    (fetchCountry "sa" cfgEn ⟨true, 1000, .ok (encodeCountryData sampleCountry)⟩ []).cache =
      (fetchCountry "sa" cfgArOnly ⟨true, 1000, .ok (encodeCountryData sampleCountry)⟩ []).cache :=
  cacheConfigIndependent "sa" cfgEn cfgArOnly
    ⟨true, 1000, .ok (encodeCountryData sampleCountry)⟩ []
    (encodeCountryData sampleCountry) sampleCountry rfl rfl rfl rfl

/-- A one-city dataset whose city carries only a latitude, and it is zero. -/
def halfCoordCountry : CountryData :=
  ⟨"tc", none, [("en", "Test Country")], "+0", "TST", "UTC", "flag-t",
   [⟨"01", [("en", "Test Region")], [⟨[("en", "Equator City")], some 0, none⟩]⟩]⟩

/-- C5 counterexample: with `includeCoordinates = true`, a city carrying only
`latitude = 0` (no longitude) loses that coordinate: presence is not
independent per field — the filter keeps coordinates only when both are
present. -/
theorem zeroCoordinates_counterexample :
    (filterCountryData halfCoordCountry cfgEn).regions =
      [⟨"01", [("en", "Test Region")], [⟨[("en", "Equator City")], none, none⟩]⟩] ∧
    halfCoordCountry.regions =
      [⟨"01", [("en", "Test Region")], [⟨[("en", "Equator City")], some 0, none⟩]⟩] ∧
    cfgEn.includeCoordinates = true :=
  ⟨rfl, rfl, rfl⟩

/-- C5 amended: with `includeCoordinates = true`, every city that carries
both coordinates keeps both exact values (zero included); a city carrying
only one of the two loses it (both coordinates are dropped). Every city of
the projection is the `filterCity` image of the corresponding input city. -/
theorem zeroCoordinates_amended :
    (∀ (cfg : GeoDataConfig) (city : City),
      cfg.includeCoordinates = true →
      city.latitude.isSome = true → city.longitude.isSome = true →
      (filterCity cfg city).latitude = city.latitude ∧
      (filterCity cfg city).longitude = city.longitude) ∧
    (∀ (cfg : GeoDataConfig) (city : City),
      city.latitude.isSome = false ∨ city.longitude.isSome = false →
      (filterCity cfg city).latitude = none ∧
      (filterCity cfg city).longitude = none) ∧
    (∀ (d : CountryData) (cfg : GeoDataConfig),
      (filterCountryData d cfg).regions =
        d.regions.map (fun region =>
          { region with
            name := filterName cfg region.name
            cities := region.cities.map (filterCity cfg) })) := by
  refine ⟨?_, ?_, fun d cfg => rfl⟩
  · intro cfg city hinc hlat hlon
    simp [filterCity, hinc, hlat, hlon]
  · intro cfg city h
    rcases h with h | h <;> simp [filterCity, h]

/-- C5 witness: a city at the equator/prime-meridian point keeps both exact
zeros. -/
theorem zeroCoordinates_witness :
    (filterCity cfgEn ⟨[("en", "Zero City")], some 0, some 0⟩).latitude = some 0 ∧
    (filterCity cfgEn ⟨[("en", "Zero City")], some 0, some 0⟩).longitude = some 0 :=
  zeroCoordinates_amended.1 cfgEn ⟨[("en", "Zero City")], some 0, some 0⟩
    rfl rfl rfl

/-- A dataset whose English name is present but empty. -/
def emptyEnCountry : CountryData :=
  ⟨"ec", none, [("en", ""), ("ar", "AR")], "+0", "TST", "UTC", "flag-e",
   [⟨"01", [("en", "R")], []⟩]⟩

/-- C6 counterexample: the source name map contains key `en` (with the empty
string), yet the projection drops it entirely — the fallback tests JS
truthiness, not key presence. -/
theorem englishFallback_counterexample :
    rget (filterCountryData emptyEnCountry cfgEn).name "en" = none ∧
    rget emptyEnCountry.name "en" = some "" :=
  ⟨rfl, rfl⟩

/-- C6 amended: every name map of the projection (the country's, each
region's, each city's) is a `filterName` image, and `filterName` keeps key
`en` with its original value whenever the source map contains `en` with a
non-empty (truthy) value — regardless of whether `en` is among the
configured languages. -/
theorem englishFallback_amended :
    (∀ (cfg : GeoDataConfig) (name : RMap),
      truthyS (rget name "en") = true →
      rget (filterName cfg name) "en" = rget name "en") ∧
    (∀ (d : CountryData) (cfg : GeoDataConfig),
      (filterCountryData d cfg).name = filterName cfg d.name ∧
      (filterCountryData d cfg).regions = d.regions.map (filterRegion cfg)) ∧
    (∀ (cfg : GeoDataConfig) (region : Region),
      (filterRegion cfg region).name = filterName cfg region.name ∧
      (filterRegion cfg region).cities = region.cities.map (filterCity cfg)) ∧
    (∀ (cfg : GeoDataConfig) (city : City),
      (filterCity cfg city).name = filterName cfg city.name) := by
  refine ⟨filterName_en, fun d cfg => ⟨rfl, rfl⟩, fun cfg region => ⟨rfl, rfl⟩, ?_⟩
  intro cfg city
  unfold filterCity
  split <;> rfl

/-- C6 witness: English survives a projection onto Arabic only. -/
theorem englishFallback_witness :
    rget (filterName cfgArOnly [("en", "Saudi Arabia"), ("ar", "SA-ar")]) "en" =
      rget ([("en", "Saudi Arabia"), ("ar", "SA-ar")] : RMap) "en" :=
  englishFallback_amended.1 cfgArOnly [("en", "Saudi Arabia"), ("ar", "SA-ar")] rfl

/-- C7: the projection is idempotent: filtering an already-filtered dataset
with the same config is the identity. -/
theorem projection_idempotent :
    ∀ (d : CountryData) (cfg : GeoDataConfig),
      filterCountryData (filterCountryData d cfg) cfg = filterCountryData d cfg :=
  filterCountryData_idem

/-- C9 (modelled from the spec for the missing `codegen.ts`): the generator
sorts the installed codes, so any two installation orders of the same set of
country files yield the same `getCountryCodes()` output; on a directory
holding `us.json` and `sa.json` (plus possibly `index.json`, which is
excluded) that output is `["SA", "US"]`. -/
theorem codegen_sorted_deterministic :
    (∀ files₁ files₂ : List String, files₁.Perm files₂ →
      getCountryCodes files₁ = getCountryCodes files₂) ∧
    getCountryCodes ["us.json", "sa.json"] = ["SA", "US"] ∧
    getCountryCodes ["sa.json", "index.json", "us.json"] = ["SA", "US"] := by
  refine ⟨?_, by decide, by decide⟩
  intro files₁ files₂ h
  have hperm : (getInstalledCountries files₁).Perm (getInstalledCountries files₂) :=
    (h.filter _).map _
  unfold getCountryCodes
  rw [sortStrings_perm_invariant _ _ hperm]

/-- C9 witness: the two installation orders of `us.json`/`sa.json` agree. -/
theorem codegen_sorted_deterministic_witness :
    getCountryCodes ["us.json", "sa.json"] =
      getCountryCodes ["sa.json", "us.json"] :=
  codegen_sorted_deterministic.1 ["us.json", "sa.json"] ["sa.json", "us.json"]
    (by decide)

/-! ## A mutable-heap embedding of `filterCountryData`

`filterCountryData` builds its result with object literals, spreads, and
assignments (`filtered[lang] = …`, `filteredCity.latitude = …`). To state
that it never mutates its input, the same source statements are mirrored
over an explicit heap of JS objects: every object is a heap cell, property
writes go through the heap, and the frame theorem shows every cell that
existed before the call — in particular the whole input dataset graph — is
untouched, with the result built only from fresh cells. -/

/-- A JS value: primitive or reference to a heap object. -/
inductive HVal where
  | vstr (s : String)
  | vnum (q : Rat)
  | vbool (b : Bool)
  | vundefined
  | vref (a : Nat)
deriving DecidableEq, Repr

/-- A heap object: a plain object or an array. -/
inductive HObj where
  | jsobj (fields : List (String × HVal))
  | jsarr (elems : List HVal)
deriving DecidableEq, Repr

/-- The heap: cell `i` is the object at address `i`; allocation appends. -/
abbrev Heap := List HObj

/-- Allocate a fresh object. -/
def halloc (h : Heap) (o : HObj) : Heap × Nat := (h ++ [o], h.length)

/-- Dereference an address. -/
def hget (h : Heap) (a : Nat) : Option HObj := h[a]?

/-- Update a field list, JS-style (overwrite in place or append). -/
def objSet (fs : List (String × HVal)) (k : String) (v : HVal) :
    List (String × HVal) :=
  match fs with
  | [] => [(k, v)]
  | (k2, v2) :: rest =>
    if k2 = k then (k, v) :: rest else (k2, v2) :: objSet rest k v

/-- JS truthiness of a value. -/
def hvTruthy : HVal → Bool
  | .vstr s => s ≠ ""
  | .vnum q => q ≠ 0
  | .vbool b => b
  | .vundefined => false
  | .vref _ => true

/-- `v !== undefined`. -/
def hvDefined : HVal → Bool
  | .vundefined => false
  | _ => true

/-- JS property read `v[k]`: `undefined` for a missing key or a primitive
receiver, a dynamic failure (`none`) when the receiver is `undefined`. -/
def getField (h : Heap) (v : HVal) (k : String) : Option HVal :=
  match v with
  | .vref a =>
    match hget h a with
    | some (.jsobj fs) => some (((fs.find? (fun p => p.1 = k)).map (·.2)).getD .vundefined)
    | some (.jsarr _) => some .vundefined
    | none => none
  | .vundefined => none
  | _ => some .vundefined

/-- JS property write `h[a][k] = v` (no-op on a non-object cell, which the
mirrored code never does). -/
def setField (h : Heap) (a : Nat) (k : String) (v : HVal) : Heap :=
  match hget h a with
  | some (.jsobj fs) => h.set a (.jsobj (objSet fs k v))
  | _ => h

/-- The fields `{...v}` spreads into an object literal. -/
def spreadFields (h : Heap) (v : HVal) : List (String × HVal) :=
  match v with
  | .vref a =>
    match hget h a with
    | some (.jsobj fs) => fs
    | _ => []
  | _ => []

/-- The `for (const lang of config.languages)` loop of `filterName`,
mutating the fresh `filtered` object at address `fa`. -/
def filterNameLoopH (h : Heap) (nameV : HVal) (langs : List String) (fa : Nat) :
    Option Heap :=
  match langs with
  | [] => some h
  | l :: ls =>
    match getField h nameV l with
    | none => none
    | some v =>
      filterNameLoopH (if hvTruthy v then setField h fa l v else h) nameV ls fa

/-- `filterName` over the heap: `const filtered = {}` (a fresh cell at the
end of the heap), the language loop, then the `!filtered.en && name.en`
fallback assignment. -/
def filterNameH (h : Heap) (nameV : HVal) (cfg : GeoDataConfig) :
    Option (Heap × Nat) :=
  match filterNameLoopH (h ++ [.jsobj []]) nameV cfg.languages h.length with
  | none => none
  | some h2 =>
    match getField h2 (.vref h.length) "en", getField h2 nameV "en" with
    | some fen, some en =>
      some (if ¬ hvTruthy fen ∧ hvTruthy en then setField h2 h.length "en" en
            else h2, h.length)
    | some _, none => none
    | none, _ => none

/-- The city callback: `const filteredCity = { name: filterName(city.name) }`
plus the conditional coordinate assignments. -/
def filterCityH (h : Heap) (cityV : HVal) (cfg : GeoDataConfig) :
    Option (Heap × Nat) :=
  match getField h cityV "name" with
  | none => none
  | some nameV =>
    match filterNameH h nameV cfg with
    | none => none
    | some (h1, na) =>
      match getField (h1 ++ [.jsobj [("name", .vref na)]]) cityV "latitude",
            getField (h1 ++ [.jsobj [("name", .vref na)]]) cityV "longitude" with
      | some latV, some lonV =>
        if cfg.includeCoordinates && hvDefined latV && hvDefined lonV then
          some (setField (setField (h1 ++ [.jsobj [("name", .vref na)]])
                  h1.length "latitude" latV) h1.length "longitude" lonV,
                h1.length)
        else some (h1 ++ [.jsobj [("name", .vref na)]], h1.length)
      | some _, none => none
      | none, _ => none

/-- `region.cities.map(city => …)`: run the callback left to right,
threading the heap. -/
def mapCitiesH (h : Heap) (elems : List HVal) (cfg : GeoDataConfig) :
    Option (Heap × List HVal) :=
  match elems with
  | [] => some (h, [])
  | v :: vs =>
    match filterCityH h v cfg with
    | none => none
    | some (h1, ca) =>
      match mapCitiesH h1 vs cfg with
      | none => none
      | some (h2, rest) => some (h2, .vref ca :: rest)

/-- Read the element list of an array value (`.map` on anything else is a
dynamic failure). -/
def arrayElems (h : Heap) (v : HVal) : Option (List HVal) :=
  match v with
  | .vref a =>
    match hget h a with
    | some (.jsarr es) => some es
    | _ => none
  | _ => none

/-- The region callback:
`{ ...region, name: filterName(region.name), cities: region.cities.map(…) }`;
the new array cell and the new region object are allocated at the end. -/
def filterRegionH (h : Heap) (regionV : HVal) (cfg : GeoDataConfig) :
    Option (Heap × Nat) :=
  match getField h regionV "name" with
  | none => none
  | some nameV =>
    match filterNameH h nameV cfg with
    | none => none
    | some (h1, na) =>
      match getField h1 regionV "cities" with
      | none => none
      | some citiesV =>
        match arrayElems h1 citiesV with
        | none => none
        | some elems =>
          match mapCitiesH h1 elems cfg with
          | none => none
          | some (h2, cityRefs) =>
            some (h2 ++ [.jsarr cityRefs] ++
                    [.jsobj (objSet (objSet (spreadFields h regionV)
                      "name" (.vref na)) "cities" (.vref h2.length))],
                  h2.length + 1)

/-- `data.regions.map(region => …)`. -/
def mapRegionsH (h : Heap) (elems : List HVal) (cfg : GeoDataConfig) :
    Option (Heap × List HVal) :=
  match elems with
  | [] => some (h, [])
  | v :: vs =>
    match filterRegionH h v cfg with
    | none => none
    | some (h1, ra) =>
      match mapRegionsH h1 vs cfg with
      | none => none
      | some (h2, rest) => some (h2, .vref ra :: rest)

/-- `filterCountryData` over the heap:
`{ ...data, name: filterName(data.name), regions: data.regions.map(…) }`. -/
def filterCountryDataH (h : Heap) (dataV : HVal) (cfg : GeoDataConfig) :
    Option (Heap × Nat) :=
  match getField h dataV "name" with
  | none => none
  | some nameV =>
    match filterNameH h nameV cfg with
    | none => none
    | some (h1, na) =>
      match getField h1 dataV "regions" with
      | none => none
      | some regionsV =>
        match arrayElems h1 regionsV with
        | none => none
        | some elems =>
          match mapRegionsH h1 elems cfg with
          | none => none
          | some (h2, regionRefs) =>
            some (h2 ++ [.jsarr regionRefs] ++
                    [.jsobj (objSet (objSet (spreadFields h dataV)
                      "name" (.vref na)) "regions" (.vref h2.length))],
                  h2.length + 1)

/-! ## Frame lemmas: the imperative filter never touches pre-existing cells -/

theorem setField_length (h : Heap) (a : Nat) (k : String) (v : HVal) :
    (setField h a k v).length = h.length := by
  unfold setField
  rcases hget h a with _ | o
  · rfl
  · rcases o with fs | es
    · exact List.length_set h a _
    · rfl

theorem setField_frame (h : Heap) (a : Nat) (k : String) (v : HVal)
    (i : Nat) (hia : i ≠ a) : (setField h a k v)[i]? = h[i]? := by
  unfold setField
  rcases hget h a with _ | o
  · rfl
  · rcases o with fs | es
    · exact List.getElem?_set_ne (fun hh => hia hh.symm)
    · rfl

theorem halloc_frame (h : Heap) (o : HObj) (i : Nat) (hi : i < h.length) :
    (h ++ [o])[i]? = h[i]? := by
  rw [List.getElem?_append]
  exact if_pos hi

theorem filterNameLoopH_frame :
    ∀ (langs : List String) (h : Heap) (nameV : HVal) (fa : Nat) (h' : Heap),
      filterNameLoopH h nameV langs fa = some h' →
      h'.length = h.length ∧ ∀ i, i ≠ fa → h'[i]? = h[i]?
  | [], h, nameV, fa, h', hrun => by
    simp only [filterNameLoopH, Option.some.injEq] at hrun
    subst hrun
    exact ⟨rfl, fun i _ => rfl⟩
  | l :: ls, h, nameV, fa, h', hrun => by
    rcases hv : getField h nameV l with _ | v
    · simp only [filterNameLoopH, hv] at hrun
      exact Option.noConfusion hrun
    · simp only [filterNameLoopH, hv] at hrun
      obtain ⟨hlen, hfr⟩ := filterNameLoopH_frame ls _ nameV fa h' hrun
      rcases htv : hvTruthy v with _ | _
      · rw [htv] at hlen hfr
        simp only [Bool.false_eq_true, if_false] at hlen hfr
        exact ⟨hlen, hfr⟩
      · rw [htv] at hlen hfr
        simp only [if_true] at hlen hfr
        refine ⟨hlen.trans (setField_length h fa l v), fun i hia => ?_⟩
        rw [hfr i hia, setField_frame h fa l v i hia]

theorem filterNameH_frame (h : Heap) (nameV : HVal) (cfg : GeoDataConfig)
    (h' : Heap) (fa : Nat) (hrun : filterNameH h nameV cfg = some (h', fa)) :
    (∀ i, i < h.length → h'[i]? = h[i]?) ∧ h.length < h'.length ∧ fa = h.length := by
  rcases hl : filterNameLoopH (h ++ [.jsobj []]) nameV cfg.languages h.length
    with _ | h2
  · simp only [filterNameH, hl] at hrun
    exact Option.noConfusion hrun
  · simp only [filterNameH, hl] at hrun
    obtain ⟨hlen2, hfr2⟩ := filterNameLoopH_frame _ _ nameV _ _ hl
    rcases hfen : getField h2 (.vref h.length) "en" with _ | fen
    · simp only [hfen] at hrun
      exact Option.noConfusion hrun
    · simp only [hfen] at hrun
      rcases hen : getField h2 nameV "en" with _ | en
      · simp only [hen] at hrun
        exact Option.noConfusion hrun
      · simp only [hen, Option.some.injEq, Prod.mk.injEq] at hrun
        obtain ⟨hh, hfa⟩ := hrun
        subst hh
        subst hfa
        have hlen1 : h2.length = h.length + 1 := by
          rw [hlen2]
          simp
        refine ⟨fun i hi => ?_, ?_, rfl⟩
        · have hia : i ≠ h.length := Nat.ne_of_lt hi
          have step1 : h2[i]? = h[i]? := by
            rw [hfr2 i hia, halloc_frame h _ i hi]
          split
          · rw [setField_frame h2 h.length "en" en i hia, step1]
          · exact step1
        · split
          · rw [setField_length, hlen1]
            omega
          · omega

theorem filterCityH_frame (h : Heap) (cityV : HVal) (cfg : GeoDataConfig)
    (h' : Heap) (ca : Nat) (hrun : filterCityH h cityV cfg = some (h', ca)) :
    (∀ i, i < h.length → h'[i]? = h[i]?) ∧ h.length ≤ h'.length ∧ h.length ≤ ca := by
  rcases hn : getField h cityV "name" with _ | nameV
  · simp only [filterCityH, hn] at hrun
    exact Option.noConfusion hrun
  · simp only [filterCityH, hn] at hrun
    rcases hf : filterNameH h nameV cfg with _ | p1
    · simp only [hf] at hrun
      exact Option.noConfusion hrun
    · obtain ⟨h1, na⟩ := p1
      simp only [hf] at hrun
      obtain ⟨hfr1, hlt1, _⟩ := filterNameH_frame h nameV cfg h1 na hf
      have hca : h.length ≤ h1.length := Nat.le_of_lt hlt1
      rcases hlat : getField (h1 ++ [HObj.jsobj [("name", HVal.vref na)]]) cityV "latitude"
        with _ | latV
      · simp only [hlat] at hrun
        exact Option.noConfusion hrun
      · simp only [hlat] at hrun
        rcases hlon : getField (h1 ++ [HObj.jsobj [("name", HVal.vref na)]]) cityV "longitude"
          with _ | lonV
        · simp only [hlon] at hrun
          exact Option.noConfusion hrun
        · simp only [hlon] at hrun
          split at hrun
          all_goals
            simp only [Option.some.injEq, Prod.mk.injEq] at hrun
            obtain ⟨hh, hcaeq⟩ := hrun
            subst hh
            subst hcaeq
          · refine ⟨fun i hi => ?_, ?_, hca⟩
            · have hia : i ≠ h1.length := Nat.ne_of_lt (Nat.lt_of_lt_of_le hi hca)
              rw [setField_frame _ h1.length "longitude" lonV i hia,
                setField_frame _ h1.length "latitude" latV i hia,
                halloc_frame h1 _ i (Nat.lt_of_lt_of_le hi hca), hfr1 i hi]
            · rw [setField_length, setField_length]
              simp only [List.length_append, List.length_cons, List.length_nil]
              omega
          · refine ⟨fun i hi => ?_, ?_, hca⟩
            · rw [halloc_frame h1 _ i (Nat.lt_of_lt_of_le hi hca), hfr1 i hi]
            · simp only [List.length_append, List.length_cons, List.length_nil]
              omega

theorem mapCitiesH_frame :
    ∀ (elems : List HVal) (h : Heap) (cfg : GeoDataConfig) (h' : Heap)
      (refs : List HVal),
      mapCitiesH h elems cfg = some (h', refs) →
      (∀ i, i < h.length → h'[i]? = h[i]?) ∧ h.length ≤ h'.length
  | [], h, cfg, h', refs, hrun => by
    simp only [mapCitiesH, Option.some.injEq, Prod.mk.injEq] at hrun
    obtain ⟨hh, _⟩ := hrun
    subst hh
    exact ⟨fun i _ => rfl, Nat.le_refl _⟩
  | v :: vs, h, cfg, h', refs, hrun => by
    rcases hc : filterCityH h v cfg with _ | p1
    · simp only [mapCitiesH, hc] at hrun
      exact Option.noConfusion hrun
    · obtain ⟨h1, ca⟩ := p1
      simp only [mapCitiesH, hc] at hrun
      obtain ⟨hfr1, hle1, _⟩ := filterCityH_frame h v cfg h1 ca hc
      rcases hm : mapCitiesH h1 vs cfg with _ | p2
      · simp only [hm] at hrun
        exact Option.noConfusion hrun
      · obtain ⟨h2, rest⟩ := p2
        simp only [hm, Option.some.injEq, Prod.mk.injEq] at hrun
        obtain ⟨hh, _⟩ := hrun
        subst hh
        obtain ⟨hfr2, hle2⟩ := mapCitiesH_frame vs h1 cfg h2 rest hm
        refine ⟨fun i hi => ?_, Nat.le_trans hle1 hle2⟩
        rw [hfr2 i (Nat.lt_of_lt_of_le hi hle1), hfr1 i hi]

theorem filterRegionH_frame (h : Heap) (regionV : HVal) (cfg : GeoDataConfig)
    (h' : Heap) (ra : Nat) (hrun : filterRegionH h regionV cfg = some (h', ra)) :
    (∀ i, i < h.length → h'[i]? = h[i]?) ∧ h.length ≤ h'.length ∧ h.length ≤ ra := by
  rcases hn : getField h regionV "name" with _ | nameV
  · simp only [filterRegionH, hn] at hrun
    exact Option.noConfusion hrun
  · simp only [filterRegionH, hn] at hrun
    rcases hf : filterNameH h nameV cfg with _ | p1
    · simp only [hf] at hrun
      exact Option.noConfusion hrun
    · obtain ⟨h1, na⟩ := p1
      simp only [hf] at hrun
      obtain ⟨hfr1, hlt1, _⟩ := filterNameH_frame h nameV cfg h1 na hf
      have hle1 : h.length ≤ h1.length := Nat.le_of_lt hlt1
      rcases hcv : getField h1 regionV "cities" with _ | citiesV
      · simp only [hcv] at hrun
        exact Option.noConfusion hrun
      · simp only [hcv] at hrun
        rcases hae : arrayElems h1 citiesV with _ | elems
        · simp only [hae] at hrun
          exact Option.noConfusion hrun
        · simp only [hae] at hrun
          rcases hm : mapCitiesH h1 elems cfg with _ | p2
          · simp only [hm] at hrun
            exact Option.noConfusion hrun
          · obtain ⟨h2, cityRefs⟩ := p2
            simp only [hm, Option.some.injEq, Prod.mk.injEq] at hrun
            obtain ⟨hh, hra⟩ := hrun
            subst hh
            subst hra
            obtain ⟨hfr2, hle2⟩ := mapCitiesH_frame elems h1 cfg h2 cityRefs hm
            have hle12 : h.length ≤ h2.length := Nat.le_trans hle1 hle2
            refine ⟨fun i hi => ?_, ?_, ?_⟩
            · have hi2 : i < h2.length := Nat.lt_of_lt_of_le hi hle12
              have hi3 : i < (h2 ++ [HObj.jsarr cityRefs]).length := by
                simp only [List.length_append, List.length_cons, List.length_nil]
                omega
              rw [halloc_frame _ _ i hi3, halloc_frame h2 _ i hi2,
                hfr2 i (Nat.lt_of_lt_of_le hi hle1), hfr1 i hi]
            · simp only [List.length_append, List.length_cons, List.length_nil]
              omega
            · omega

theorem mapRegionsH_frame :
    ∀ (elems : List HVal) (h : Heap) (cfg : GeoDataConfig) (h' : Heap)
      (refs : List HVal),
      mapRegionsH h elems cfg = some (h', refs) →
      (∀ i, i < h.length → h'[i]? = h[i]?) ∧ h.length ≤ h'.length
  | [], h, cfg, h', refs, hrun => by
    simp only [mapRegionsH, Option.some.injEq, Prod.mk.injEq] at hrun
    obtain ⟨hh, _⟩ := hrun
    subst hh
    exact ⟨fun i _ => rfl, Nat.le_refl _⟩
  | v :: vs, h, cfg, h', refs, hrun => by
    rcases hc : filterRegionH h v cfg with _ | p1
    · simp only [mapRegionsH, hc] at hrun
      exact Option.noConfusion hrun
    · obtain ⟨h1, ra⟩ := p1
      simp only [mapRegionsH, hc] at hrun
      obtain ⟨hfr1, hle1, _⟩ := filterRegionH_frame h v cfg h1 ra hc
      rcases hm : mapRegionsH h1 vs cfg with _ | p2
      · simp only [hm] at hrun
        exact Option.noConfusion hrun
      · obtain ⟨h2, rest⟩ := p2
        simp only [hm, Option.some.injEq, Prod.mk.injEq] at hrun
        obtain ⟨hh, _⟩ := hrun
        subst hh
        obtain ⟨hfr2, hle2⟩ := mapRegionsH_frame vs h1 cfg h2 rest hm
        refine ⟨fun i hi => ?_, Nat.le_trans hle1 hle2⟩
        rw [hfr2 i (Nat.lt_of_lt_of_le hi hle1), hfr1 i hi]

theorem filterCountryDataH_frame (h : Heap) (dataV : HVal) (cfg : GeoDataConfig)
    (h' : Heap) (da : Nat)
    (hrun : filterCountryDataH h dataV cfg = some (h', da)) :
    (∀ i, i < h.length → h'[i]? = h[i]?) ∧ h.length ≤ h'.length ∧ h.length ≤ da := by
  rcases hn : getField h dataV "name" with _ | nameV
  · simp only [filterCountryDataH, hn] at hrun
    exact Option.noConfusion hrun
  · simp only [filterCountryDataH, hn] at hrun
    rcases hf : filterNameH h nameV cfg with _ | p1
    · simp only [hf] at hrun
      exact Option.noConfusion hrun
    · obtain ⟨h1, na⟩ := p1
      simp only [hf] at hrun
      obtain ⟨hfr1, hlt1, _⟩ := filterNameH_frame h nameV cfg h1 na hf
      have hle1 : h.length ≤ h1.length := Nat.le_of_lt hlt1
      rcases hrv : getField h1 dataV "regions" with _ | regionsV
      · simp only [hrv] at hrun
        exact Option.noConfusion hrun
      · simp only [hrv] at hrun
        rcases hae : arrayElems h1 regionsV with _ | elems
        · simp only [hae] at hrun
          exact Option.noConfusion hrun
        · simp only [hae] at hrun
          rcases hm : mapRegionsH h1 elems cfg with _ | p2
          · simp only [hm] at hrun
            exact Option.noConfusion hrun
          · obtain ⟨h2, regionRefs⟩ := p2
            simp only [hm, Option.some.injEq, Prod.mk.injEq] at hrun
            obtain ⟨hh, hda⟩ := hrun
            subst hh
            subst hda
            obtain ⟨hfr2, hle2⟩ := mapRegionsH_frame elems h1 cfg h2 regionRefs hm
            have hle12 : h.length ≤ h2.length := Nat.le_trans hle1 hle2
            refine ⟨fun i hi => ?_, ?_, ?_⟩
            · have hi2 : i < h2.length := Nat.lt_of_lt_of_le hi hle12
              have hi3 : i < (h2 ++ [HObj.jsarr regionRefs]).length := by
                simp only [List.length_append, List.length_cons, List.length_nil]
                omega
              rw [halloc_frame _ _ i hi3, halloc_frame h2 _ i hi2,
                hfr2 i (Nat.lt_of_lt_of_le hi hle1), hfr1 i hi]
            · simp only [List.length_append, List.length_cons, List.length_nil]
              omega
            · omega

/-! ## Building and reading dataset graphs on the heap

Used to witness the heap embedding on concrete data: `storeCountry` lays a
`CountryData` value out as a JS object graph, `readCountryH` decodes a graph
back. -/

/-- Store a name map as a fresh object. -/
def storeRMap (h : Heap) (m : RMap) : Heap × Nat :=
  (h ++ [.jsobj (m.map (fun p => (p.1, .vstr p.2)))], h.length)

/-- The coordinate fields a city object carries (absent fields are simply
not present). -/
def coordFields (lat lon : Option Rat) : List (String × HVal) :=
  (match lat with | some q => [("latitude", .vnum q)] | none => []) ++
  (match lon with | some q => [("longitude", .vnum q)] | none => [])

/-- Store a city as a fresh object graph. -/
def storeCity (h : Heap) (c : City) : Heap × Nat :=
  let (h1, na) := storeRMap h c.name
  (h1 ++ [.jsobj (("name", .vref na) :: coordFields c.latitude c.longitude)],
   h1.length)

/-- Store a list of cities, returning their references. -/
def storeCities (h : Heap) (cs : List City) : Heap × List HVal :=
  match cs with
  | [] => (h, [])
  | c :: rest =>
    let (h1, a) := storeCity h c
    let (h2, tailRefs) := storeCities h1 rest
    (h2, .vref a :: tailRefs)

/-- Store a region as a fresh object graph. -/
def storeRegion (h : Heap) (r : Region) : Heap × Nat :=
  let (h1, na) := storeRMap h r.name
  let (h2, cityRefs) := storeCities h1 r.cities
  let h3 := h2 ++ [.jsarr cityRefs]
  (h3 ++ [.jsobj [("code", .vstr r.code), ("name", .vref na),
                  ("cities", .vref h2.length)]],
   h3.length)

/-- Store a list of regions, returning their references. -/
def storeRegions (h : Heap) (rs : List Region) : Heap × List HVal :=
  match rs with
  | [] => (h, [])
  | r :: rest =>
    let (h1, a) := storeRegion h r
    let (h2, tailRefs) := storeRegions h1 rest
    (h2, .vref a :: tailRefs)

/-- Store a full dataset as a fresh object graph. -/
def storeCountry (h : Heap) (d : CountryData) : Heap × Nat :=
  let (h1, na) := storeRMap h d.name
  let (h2, regionRefs) := storeRegions h1 d.regions
  let h3 := h2 ++ [.jsarr regionRefs]
  (h3 ++ [.jsobj (("code", .vstr d.code) ::
      ((match d.iso3 with | some s => [("iso3", .vstr s)] | none => []) ++
       [("name", .vref na), ("phone", .vstr d.phone),
        ("currency", .vstr d.currency), ("timezone", .vstr d.timezone),
        ("flag", .vstr d.flag), ("regions", .vref h2.length)]))],
   h3.length)

/-- A string-valued property. -/
def hvStr : HVal → Option String
  | .vstr s => some s
  | _ => none

/-- A present property of an object value. -/
def fieldOf (h : Heap) (v : HVal) (k : String) : Option HVal :=
  match v with
  | .vref a =>
    match hget h a with
    | some (.jsobj fs) => (fs.find? (fun p => p.1 = k)).map (·.2)
    | _ => none
  | _ => none

/-- Decode a name-map object. -/
def readRMapH (h : Heap) (v : HVal) : Option RMap :=
  match v with
  | .vref a =>
    match hget h a with
    | some (.jsobj fs) =>
      fs.mapM (fun p => match p.2 with | .vstr s => some (p.1, s) | _ => none)
    | _ => none
  | _ => none

/-- Decode a city object. -/
def readCityH (h : Heap) (v : HVal) : Option City := do
  let nv ← fieldOf h v "name"
  let name ← readRMapH h nv
  let lat := match fieldOf h v "latitude" with | some (.vnum q) => some q | _ => none
  let lon := match fieldOf h v "longitude" with | some (.vnum q) => some q | _ => none
  pure ⟨name, lat, lon⟩

/-- Decode a region object. -/
def readRegionH (h : Heap) (v : HVal) : Option Region := do
  let code ← fieldOf h v "code" >>= hvStr
  let nv ← fieldOf h v "name"
  let name ← readRMapH h nv
  let cv ← fieldOf h v "cities"
  let elems ← arrayElems h cv
  let cities ← elems.mapM (readCityH h)
  pure ⟨code, name, cities⟩

/-- Decode a full dataset object. -/
def readCountryH (h : Heap) (v : HVal) : Option CountryData := do
  let code ← fieldOf h v "code" >>= hvStr
  let iso3 := match fieldOf h v "iso3" with | some (.vstr s) => some s | _ => none
  let nv ← fieldOf h v "name"
  let name ← readRMapH h nv
  let phone ← fieldOf h v "phone" >>= hvStr
  let currency ← fieldOf h v "currency" >>= hvStr
  let timezone ← fieldOf h v "timezone" >>= hvStr
  let flag ← fieldOf h v "flag" >>= hvStr
  let rv ← fieldOf h v "regions"
  let elems ← arrayElems h rv
  let regions ← elems.mapM (readRegionH h)
  pure ⟨code, iso3, name, phone, currency, timezone, flag, regions⟩

/-- The sample dataset laid out on an empty heap. -/
def demoStore : Heap × Nat := storeCountry [] sampleCountry

/-- The imperative filter run on the stored sample dataset. -/
def demoRun : Option (Heap × Nat) :=
  filterCountryDataH demoStore.1 (.vref demoStore.2) cfgArOnly

/-- The final heap and result address of the demo run. -/
def demoOut : Heap × Nat := demoRun.getD ([], 0)

/-- C8: filter purity and non-mutation. Over the heap embedding that mirrors
the source's object literals and assignments, whenever `filterCountryData`
completes, every heap cell that existed before the call — in particular the
entire input dataset graph, with its nested regions, cities and name maps —
is left exactly as it was, and the returned projection lives at a fresh
address. The pure embedding is deterministic (equal inputs give equal
outputs), and on the stored sample dataset the imperative run decodes to
exactly the pure `filterCountryData` projection, so the caller can keep
reusing the unfiltered original. -/
theorem filter_purity :
    (∀ (h : Heap) (dataV : HVal) (cfg : GeoDataConfig) (h' : Heap) (a : Nat),
      filterCountryDataH h dataV cfg = some (h', a) →
      (∀ i, i < h.length → h'[i]? = h[i]?) ∧ h.length ≤ h'.length ∧
        h.length ≤ a) ∧
    (∀ (d₁ d₂ : CountryData) (cfg₁ cfg₂ : GeoDataConfig),
      d₁ = d₂ → cfg₁ = cfg₂ → filterCountryData d₁ cfg₁ = filterCountryData d₂ cfg₂) ∧
    readCountryH demoStore.1 (.vref demoStore.2) = some sampleCountry ∧
    demoRun.bind (fun p => readCountryH p.1 (.vref p.2)) =
      some (filterCountryData sampleCountry cfgArOnly) := by
  refine ⟨filterCountryDataH_frame, ?_, rfl, rfl⟩
  intro d₁ d₂ cfg₁ cfg₂ hd hcfg
  rw [hd, hcfg]

/-- C8 witness: the first cell of the stored sample dataset (its country
name map) is untouched by the run, and the result address is fresh. -/
theorem filter_purity_witness :
    demoOut.1[0]? = demoStore.1[0]? ∧ demoStore.1.length ≤ demoOut.2 :=
  have hrun : filterCountryDataH demoStore.1 (.vref demoStore.2) cfgArOnly =
      some (demoOut.1, demoOut.2) := rfl
  have hspec := filter_purity.1 demoStore.1 (.vref demoStore.2) cfgArOnly
    demoOut.1 demoOut.2 hrun
  ⟨hspec.1 0 (by decide), hspec.2.2⟩

end GeoData
